import Mathlib

/-!
Verification development for the UCAC_App multi-agent document-generation
pipeline.  The definitions below are a shallow embedding, translated from the
JavaScript sources:

  * `src/backend/parse_json.js`   — tolerant JSON extractor (`parseJSON`,
    `repairTruncated`);
  * `src/backend/agents/agent1_prosit_aller.js`,
    `agent2_prosit_retour.js` (src/unnamed/part_001),
    `agent3_cer.js`             — per-stage validators (`validate_structure`),
    the coherence checker (`check_coherence`) and the ReAct stage loops
    (`runAgent`);
  * `src/backend/orchestrator.js` — shared memory (`createMemory`) and the
    pipeline sequencer (`run`).

Strings are modelled as `List Char`.  JavaScript machine strings, regular
expression replaces and `JSON.parse` are modelled by explicit executable
functions; where a JS built-in has behaviour irrelevant to every claim
(floating-point JSON numbers, `\u` surrogate pairs, non-ASCII whitespace
classes) the model restricts it and the restriction is noted at the
definition.  The agents' `onLog` callbacks only produce log text and never
influence control flow or the shared-memory fields the claims talk about, so
the stage models omit them; `analyze_memory` in agent 3 only feeds prompt
text and logs and is likewise omitted from the stage model.
-/

set_option autoImplicit false
set_option maxRecDepth 16384

/-! ## Characters

Named characters used throughout the embedding. -/

def dq : Char := Char.ofNat 34

def bslash : Char := Char.ofNat 92

def btick : Char := Char.ofNat 96

def lcurly : Char := Char.ofNat 123

def rcurly : Char := Char.ofNat 125

def lsq : Char := '['

def rsq : Char := ']'

/-- JavaScript regex `\s` restricted to its ASCII members (space, tab, line
feed, carriage return, vertical tab, form feed).  The sources only ever meet
ASCII whitespace. -/
def isJsWs (c : Char) : Bool :=
  c = ' ' ∨ c = Char.ofNat 9 ∨ c = Char.ofNat 10 ∨ c = Char.ofNat 13 ∨
  c = Char.ofNat 11 ∨ c = Char.ofNat 12

/-- JSON grammar whitespace as accepted by `JSON.parse`: space, tab, line
feed, carriage return. -/
def isJsonWs (c : Char) : Bool :=
  c = ' ' ∨ c = Char.ofNat 9 ∨ c = Char.ofNat 10 ∨ c = Char.ofNat 13

def isDigitCh (c : Char) : Bool :=
  48 ≤ c.toNat ∧ c.toNat ≤ 57

/-! ## JSON values

The dynamic JSON values produced by `JSON.parse` and manipulated by the
agents.  Numbers are modelled as integers: none of the claims exercises
fractional or exponent number forms. -/

mutual

inductive Json where
  | str (s : String)
  | num (n : Int)
  | bool (b : Bool)
  | null
  | arr (elems : JsonList)
  | obj (members : JsonMembers)
  deriving DecidableEq

inductive JsonList where
  | nil
  | cons (hd : Json) (tl : JsonList)
  deriving DecidableEq

inductive JsonMembers where
  | nil
  | cons (key : String) (val : Json) (tl : JsonMembers)
  deriving DecidableEq

end

def JsonList.length : JsonList → Nat
  | .nil => 0
  | .cons _ tl => tl.length + 1

def JsonMembers.length : JsonMembers → Nat
  | .nil => 0
  | .cons _ _ tl => tl.length + 1

/-- Keys of an object's member list, in insertion order. -/
def JsonMembers.keys : JsonMembers → List String
  | .nil => []
  | .cons k _ tl => k :: tl.keys

/-- Property lookup `o[k]` on an object member list.  JavaScript objects have
unique keys with later literal duplicates overwriting earlier ones, so the
lookup takes the last binding. -/
def JsonMembers.get : JsonMembers → String → Option Json
  | .nil, _ => none
  | .cons k v tl, f => match tl.get f with
    | some w => some w
    | none => if k = f then some v else none

def JsonMembers.hasKey (m : JsonMembers) (f : String) : Bool :=
  (m.get f).isSome

/-- Property access `doc[field]` on an arbitrary JSON value: only objects
expose the document fields the code reads (JS would yield `undefined`,
modelled as `none`, on all other shapes for these non-index keys). -/
def Json.getF : Json → String → Option Json
  | .obj m, f => m.get f
  | _, _ => none

/-! ## JavaScript value coercions -/

/-- JavaScript truthiness of a JSON value (`undefined` is handled by the
callers through `Option`). -/
def jsTruthy : Json → Bool
  | .str s => s ≠ ""
  | .num n => n ≠ 0
  | .bool b => b
  | .null => false
  | .arr _ => true
  | .obj _ => true

def natCharsAux : Nat → Nat → List Char
  | 0, _ => []
  | fuel + 1, n =>
    if n < 10 then [Char.ofNat (48 + n)]
    else natCharsAux fuel (n / 10) ++ [Char.ofNat (48 + n % 10)]

def natChars (n : Nat) : List Char := natCharsAux (n + 1) n

def intChars (n : Int) : List Char :=
  if n < 0 then '-' :: natChars n.natAbs else natChars n.toNat

mutual

/-- The JavaScript `String(v)` coercion on JSON values: strings unchanged,
numbers and booleans printed, `null` prints as "null", arrays join their
elements with commas, plain objects print as `[object Object]`. -/
def jsToString : Json → String
  | .str s => s
  | .num n => String.mk (intChars n)
  | .bool b => if b then "true" else "false"
  | .null => "null"
  | .arr l => String.mk (jsArrChars l)
  | .obj _ => "[object Object]"

def jsArrChars : JsonList → List Char
  | .nil => []
  | .cons h .nil => (jsToString h).data
  | .cons h (.cons h2 tl) => (jsToString h).data ++ ',' :: jsArrChars (.cons h2 tl)

end

/-- JavaScript `toLowerCase` on the character ranges the sources meet: ASCII
letters plus the Latin-1 accented uppercase letters. -/
def jsLowerChar (c : Char) : Char :=
  if 65 ≤ c.toNat ∧ c.toNat ≤ 90 then Char.ofNat (c.toNat + 32)
  else if (192 ≤ c.toNat ∧ c.toNat ≤ 214) ∨ (216 ≤ c.toNat ∧ c.toNat ≤ 222) then
    Char.ofNat (c.toNat + 32)
  else c

def jsLower (s : List Char) : List Char := s.map jsLowerChar

/-! ## Tolerant JSON extractor — `src/backend/parse_json.js`

Step 1 of `parseJSON` removes fenced code-block markers with the two global
regex replaces  `/```json\s*/gi`  and  `/```\s*/g`.  Both replaces are
modelled as left-to-right single-pass state machines; `skipN` counts
characters of a recognised marker still to be discarded and `skipWs` records
that the whitespace run following a marker is being discarded. -/

def fenceJsonHead (l : List Char) : Bool :=
  decide (l.take 3 = [btick, btick, btick]) &&
    decide (((l.drop 3).take 4).map jsLowerChar = ['j', 's', 'o', 'n'])

def fencePlainHead (l : List Char) : Bool :=
  decide (l.take 3 = [btick, btick, btick])

/-- Global replace of  ```json  plus following whitespace (case-insensitive
on the letters) by the empty string. -/
def sfj : Nat → Bool → List Char → List Char
  | _, _, [] => []
  | skipN, skipWs, c :: cs =>
    if skipN ≠ 0 then sfj (skipN - 1) skipWs cs
    else if skipWs ∧ isJsWs c then sfj 0 true cs
    else if fenceJsonHead (c :: cs) then sfj 6 true cs
    else c :: sfj 0 false cs

/-- Global replace of  ```  plus following whitespace by the empty string. -/
def sfp : Nat → Bool → List Char → List Char
  | _, _, [] => []
  | skipN, skipWs, c :: cs =>
    if skipN ≠ 0 then sfp (skipN - 1) skipWs cs
    else if skipWs ∧ isJsWs c then sfp 0 true cs
    else if fencePlainHead (c :: cs) then sfp 2 true cs
    else c :: sfp 0 false cs

def dropEndWs (l : List Char) : List Char :=
  (l.reverse.dropWhile isJsWs).reverse

/-- JavaScript `String.prototype.trim` (ASCII whitespace). -/
def jsTrim (l : List Char) : List Char :=
  (dropEndWs l).dropWhile isJsWs

/-- Index of the first `{` or `[`, the model of `s.search(/[{\[]/)`. -/
def findBracketIdx : List Char → Option Nat
  | [] => none
  | c :: cs =>
    if c = lcurly ∨ c = lsq then some 0
    else (findBracketIdx cs).map (· + 1)

/-- The bracket-matching scan of `parseJSON` step 3: nesting depth over all
braces/brackets outside double-quoted strings (with backslash escapes),
returning the index at which the depth first returns to zero. -/
def scanGo : List Char → Nat → Int → Bool → Bool → Option Nat
  | [], _, _, _, _ => none
  | c :: cs, i, depth, inStr, esc =>
    if esc then scanGo cs (i + 1) depth inStr false
    else if c = bslash then scanGo cs (i + 1) depth inStr true
    else if c = dq then scanGo cs (i + 1) depth (!inStr) false
    else if inStr then scanGo cs (i + 1) depth inStr false
    else if c = rcurly ∨ c = rsq then
      if (if c = lcurly ∨ c = lsq then depth + 1 else depth) - 1 = 0 then some i
      else scanGo cs (i + 1) ((if c = lcurly ∨ c = lsq then depth + 1 else depth) - 1) inStr false
    else scanGo cs (i + 1) (if c = lcurly ∨ c = lsq then depth + 1 else depth) inStr false

def findEnd (l : List Char) : Option Nat := scanGo l 0 0 false false

/-- Replay loop of `repairTruncated`: accumulates the consumed characters and
the stack of expected closers, stopping early at a closing quote met with an
empty stack. -/
def rtLoop : List Char → List Char → Bool → Bool → (List Char × List Char)
  | [], stack, _, _ => ([], stack)
  | c :: cs, stack, inStr, esc =>
    if esc then
      let p := rtLoop cs stack inStr false; (c :: p.1, p.2)
    else if c = bslash then
      let p := rtLoop cs stack inStr true; (c :: p.1, p.2)
    else if c = dq then
      if inStr ∧ stack.isEmpty then ([c], stack)
      else
        let p := rtLoop cs stack (!inStr) false; (c :: p.1, p.2)
    else if inStr then
      let p := rtLoop cs stack inStr false; (c :: p.1, p.2)
    else if c = lcurly then
      let p := rtLoop cs (rcurly :: stack) inStr false; (c :: p.1, p.2)
    else if c = lsq then
      let p := rtLoop cs (rsq :: stack) inStr false; (c :: p.1, p.2)
    else if (c = rcurly ∨ c = rsq) ∧ ¬stack.isEmpty then
      let p := rtLoop cs stack.tail inStr false; (c :: p.1, p.2)
    else
      let p := rtLoop cs stack inStr false; (c :: p.1, p.2)

/-- Model of the final-quote replace `/"[^"]*$/ → "..."`: the last double
quote and everything after it become a closed placeholder string. -/
def replaceLastQuote (s : List Char) : List Char :=
  match (s.reverse.dropWhile (· ≠ dq)) with
  | [] => s
  | _ :: cs => cs.reverse ++ [dq, '.', '.', '.', dq]

/-- Tail clean-up of `repairTruncated`: trim end, drop a trailing comma,
complete a trailing `key:` with an empty string value, close an unterminated
string literal, then append the pending closers (last-in first-out). -/
def rtPost (r stack : List Char) : List Char :=
  let t0 := dropEndWs r
  let t1 := if t0.getLast? = some ',' then t0.dropLast else t0
  let u := dropEndWs t1
  let t2 := if u.getLast? = some ':' then u ++ [' ', dq, dq] else t1
  replaceLastQuote t2 ++ stack

def repairTruncated (s : List Char) : List Char :=
  let p := rtLoop s [] false false
  rtPost p.1 p.2

def wsCount : List Char → Nat
  | [] => 0
  | c :: cs => if isJsWs c then wsCount cs + 1 else 0

/-- Global replace `/,\s*([}\])])/g → "$1"` dropping trailing commas before a
closing brace/bracket; `skipN` counts characters of a recognised match still
to be discarded. -/
def stc : Nat → List Char → List Char
  | _, [] => []
  | skipN, c :: cs =>
    if skipN ≠ 0 then stc (skipN - 1) cs
    else if c = ',' then
      match (cs.drop (wsCount cs)) with
      | d :: _ =>
        if d = rcurly ∨ d = rsq then d :: stc (wsCount cs + 1) cs
        else c :: stc 0 cs
      | [] => c :: stc 0 cs
    else c :: stc 0 cs

/-! ### Model of `JSON.parse`

A fuel-indexed recursive-descent parser for the JSON grammar, restricted to
integer numbers (no fraction/exponent forms) and to `\u` escapes denoting
Unicode scalar values.  `JSON.parse` rejects raw control characters inside
strings and trailing input; so does the model. -/

def skipWsJson (l : List Char) : List Char := l.dropWhile isJsonWs

def hexVal (c : Char) : Option Nat :=
  if isDigitCh c then some (c.toNat - 48)
  else if 97 ≤ c.toNat ∧ c.toNat ≤ 102 then some (c.toNat - 87)
  else if 65 ≤ c.toNat ∧ c.toNat ≤ 70 then some (c.toNat - 55)
  else none

def pStringGo : List Char → List Char → Option (String × List Char)
  | acc, c :: cs =>
    if c = dq then some (String.mk acc.reverse, cs)
    else if c = bslash then
      match cs with
      | e :: cs2 =>
        if e = dq then pStringGo (dq :: acc) cs2
        else if e = bslash then pStringGo (bslash :: acc) cs2
        else if e = '/' then pStringGo ('/' :: acc) cs2
        else if e = 'b' then pStringGo (Char.ofNat 8 :: acc) cs2
        else if e = 'f' then pStringGo (Char.ofNat 12 :: acc) cs2
        else if e = 'n' then pStringGo (Char.ofNat 10 :: acc) cs2
        else if e = 'r' then pStringGo (Char.ofNat 13 :: acc) cs2
        else if e = 't' then pStringGo (Char.ofNat 9 :: acc) cs2
        else if e = 'u' then
          match cs2 with
          | h1 :: h2 :: h3 :: h4 :: cs3 =>
            match hexVal h1, hexVal h2, hexVal h3, hexVal h4 with
            | some a, some b, some c3, some d =>
              let n := ((a * 16 + b) * 16 + c3) * 16 + d
              if n.isValidChar then pStringGo (Char.ofNat n :: acc) cs3
              else none
            | _, _, _, _ => none
          | _ => none
        else none
      | [] => none
    else if c.toNat < 32 then none
    else pStringGo (c :: acc) cs
  | _, [] => none

def pNumber (l : List Char) : Option (Json × List Char) :=
  let neg := l.head? = some '-'
  let body := if neg then l.tail else l
  let digits := body.takeWhile isDigitCh
  let rest := body.drop digits.length
  if digits = [] then none
  else if digits.length > 1 ∧ digits.head? = some '0' then none
  else
    match rest.head? with
    | some c => if c = '.' ∨ c = 'e' ∨ c = 'E' then none else
        some (.num (if neg then -(Int.ofNat (Nat.ofDigits 10 (digits.map (·.toNat - 48)).reverse)) else Int.ofNat (Nat.ofDigits 10 (digits.map (·.toNat - 48)).reverse)), rest)
    | none =>
      some (.num (if neg then -(Int.ofNat (Nat.ofDigits 10 (digits.map (·.toNat - 48)).reverse)) else Int.ofNat (Nat.ofDigits 10 (digits.map (·.toNat - 48)).reverse)), rest)

mutual

def pVal : Nat → List Char → Option (Json × List Char)
  | 0, _ => none
  | fuel + 1, l =>
    match l with
    | [] => none
    | c :: cs =>
      if c = lcurly then pObj fuel cs
      else if c = lsq then pArr fuel cs
      else if c = dq then (pStringGo [] cs).map (fun p => (Json.str p.1, p.2))
      else if c = 't' then
        match cs with
        | 'r' :: 'u' :: 'e' :: r => some (.bool true, r)
        | _ => none
      else if c = 'f' then
        match cs with
        | 'a' :: 'l' :: 's' :: 'e' :: r => some (.bool false, r)
        | _ => none
      else if c = 'n' then
        match cs with
        | 'u' :: 'l' :: 'l' :: r => some (.null, r)
        | _ => none
      else if c = '-' ∨ isDigitCh c then pNumber (c :: cs)
      else none

def pObj : Nat → List Char → Option (Json × List Char)
  | 0, _ => none
  | fuel + 1, l =>
    match skipWsJson l with
    | c :: cs =>
      if c = rcurly then some (.obj .nil, cs)
      else
        match pMembers fuel (c :: cs) with
        | some (ms, rest) => some (.obj ms, rest)
        | none => none
    | [] => none

def pArr : Nat → List Char → Option (Json × List Char)
  | 0, _ => none
  | fuel + 1, l =>
    match skipWsJson l with
    | c :: cs =>
      if c = rsq then some (.arr .nil, cs)
      else
        match pElems fuel (c :: cs) with
        | some (es, rest) => some (.arr es, rest)
        | none => none
    | [] => none

def pMembers : Nat → List Char → Option (JsonMembers × List Char)
  | 0, _ => none
  | fuel + 1, l =>
    match l with
    | c :: cs =>
      if c = dq then
        match pStringGo [] cs with
        | some (k, r1) =>
          match skipWsJson r1 with
          | d :: r2 =>
            if d = ':' then
              match pVal fuel (skipWsJson r2) with
              | some (v, r3) =>
                match skipWsJson r3 with
                | e :: r4 =>
                  if e = ',' then
                    match pMembers fuel (skipWsJson r4) with
                    | some (ms, r5) => some (.cons k v ms, r5)
                    | none => none
                  else if e = rcurly then some (.cons k v .nil, r4)
                  else none
                | [] => none
              | none => none
            else none
          | [] => none
        | none => none
      else none
    | [] => none

def pElems : Nat → List Char → Option (JsonList × List Char)
  | 0, _ => none
  | fuel + 1, l =>
    match pVal fuel l with
    | some (v, r1) =>
      match skipWsJson r1 with
      | e :: r2 =>
        if e = ',' then
          match pElems fuel (skipWsJson r2) with
          | some (es, r3) => some (.cons v es, r3)
          | none => none
        else if e = rsq then some (.cons v .nil, r2)
        else none
      | [] => none
    | none => none

end

def jsonParse (l : List Char) : Option Json :=
  match pVal (2 * l.length + 2) (skipWsJson l) with
  | some (v, rest) => if skipWsJson rest = [] then some v else none
  | none => none

/-! ### The extractor itself -/

/-- Failure modes of `parseJSON`: the explicit throw "Aucun JSON trouvé dans
la réponse LLM" and the `SyntaxError` escaping from the last-resort
`JSON.parse` once repair attempts are exhausted.  (The input, a Lean string,
cannot fail the JS `typeof` guard.) -/
inductive PErr where
  | noJsonFound
  | unparsable
  deriving DecidableEq

instance {α β : Type} [DecidableEq α] [DecidableEq β] : DecidableEq (Except α β) :=
  fun x y =>
    match x, y with
    | .ok a, .ok b => if h : a = b then .isTrue (by simp [h]) else .isFalse (by simp [h])
    | .error a, .error b => if h : a = b then .isTrue (by simp [h]) else .isFalse (by simp [h])
    | .ok _, .error _ => .isFalse (by simp)
    | .error _, .ok _ => .isFalse (by simp)

/-- Steps 5-6 of `parseJSON` applied to the comma-stripped candidate: parse;
on failure repair once more, strip trailing commas again and re-parse, the
final `JSON.parse` throw being the unparsable error. -/
def parseStage (s3 : List Char) : Except PErr Json :=
  match jsonParse s3 with
  | some v => .ok v
  | none =>
    match jsonParse (stc 0 (repairTruncated s3)) with
    | some v => .ok v
    | none => .error .unparsable

/-- Steps 3-5 of `parseJSON` applied to the text from the first
brace/bracket on: cut at the matching close (or repair a truncated tail),
then strip trailing commas and parse. -/
def afterStart (s1 : List Char) : Except PErr Json :=
  parseStage (stc 0 (match findEnd s1 with
    | some e => s1.take (e + 1)
    | none => repairTruncated s1))

/-- Step 2 of `parseJSON` applied to the fence-stripped, trimmed text:
locate the first `{` or `[` and discard everything before it. -/
def extractCore (s0 : List Char) : Except PErr Json :=
  match findBracketIdx s0 with
  | none => .error .noJsonFound
  | some start => afterStart (s0.drop start)

/-- Embedding of `parseJSON` from `src/backend/parse_json.js`: strip fences,
trim, locate the first brace/bracket, cut at the matching close (or repair a
truncated tail), drop trailing commas, parse — and on failure repair once
more, drop trailing commas again and re-parse. -/
def parseJSON (raw : List Char) : Except PErr Json :=
  extractCore (jsTrim (sfp 0 false (sfj 0 false raw)))

/-! ## Structural validators — `validate_structure` of each agent

Each agent carries a fixed ordered rule table; a rule's predicate receives
`data[field] ?? ""` (missing or `null` fields become the empty string), and
the errors are the `"[field] message"` strings of the failing rules in table
order.  `score` is `Math.round(((total - failed) / total) * 100)`, computed
here exactly over the rationals: for the rule-table sizes that occur (8, 9
and 12 rules) the JS double computation never lands on a value whose nearest
double straddles a rounding boundary, so exact rounding agrees with the JS
result. -/

structure VRule where
  field : String
  check : Json → Bool
  msg : String

/-- Model of `data[r.field] ?? ""`. -/
def fieldOrEmpty (data : Json) (f : String) : Json :=
  match data.getF f with
  | some .null => .str ""
  | some v => v
  | none => .str ""

/-- Predicate `Array.isArray(d) && d.length >= n`. -/
def arrAtLeast (n : Nat) (j : Json) : Bool :=
  match j with
  | .arr l => n ≤ l.length
  | _ => false

/-- Predicate `typeof d === "string" && d.length >= n`. -/
def strAtLeast (n : Nat) (j : Json) : Bool :=
  match j with
  | .str s => n ≤ s.length
  | _ => false

/-- Predicate `typeof d === "string" && d.trim().endsWith("?")`. -/
def strEndsQuestion (j : Json) : Bool :=
  match j with
  | .str s => (jsTrim s.data).getLast? = some '?'
  | _ => false

/-- Predicate `typeof d === "object" && Object.keys(d).length >= n`
(arrays have `typeof "object"` and expose their index keys; `null` never
reaches the predicate thanks to `?? ""`). -/
def objAtLeast (n : Nat) (j : Json) : Bool :=
  match j with
  | .obj m => n ≤ m.keys.eraseDups.length
  | .arr l => n ≤ l.length
  | _ => false

/-- Error formatting `` `[${r.field}] ${r.msg}` ``. -/
def fmtRule (r : VRule) : String :=
  "[" ++ r.field ++ "] " ++ r.msg

def ruleErrors (rules : List VRule) (data : Json) : List String :=
  (rules.filter (fun r => !(r.check (fieldOrEmpty data r.field)))).map fmtRule

/-- Exact model of `Math.round(((total - failed) / total) * 100)` for
`failed ≤ total`, `0 < total` (round half away from zero on nonnegative
input is floor of `x + 1/2`). -/
def roundScore (total failed : Nat) : Nat :=
  (200 * (total - failed) + total) / (2 * total)

structure VResult where
  valid : Bool
  errors : List String
  score : Nat
  deriving DecidableEq

def runRules (rules : List VRule) (data : Json) : VResult :=
  let errors := ruleErrors rules data
  { valid := errors.isEmpty, errors := errors, score := roundScore rules.length errors.length }

namespace Agent1

/-- Rule table of agent 1's `validate_structure` (Prosit Aller). -/
def rules : List VRule :=
  [ ⟨"mots_cles", arrAtLeast 6, "≥6 mots clés requis"⟩,
    ⟨"contexte", strAtLeast 100, "contexte trop court (≥100 car.)"⟩,
    ⟨"definition_besoins", arrAtLeast 2, "≥2 besoins requis"⟩,
    ⟨"problematique", strEndsQuestion, "doit être une question (finir par ?)"⟩,
    ⟨"contraintes", arrAtLeast 3, "≥3 contraintes requises"⟩,
    ⟨"generalisation", strAtLeast 20, "généralisation trop courte"⟩,
    ⟨"pistes_solution", arrAtLeast 2, "≥2 pistes de solution requises"⟩,
    ⟨"plan_action", arrAtLeast 4, "plan d'action : ≥4 étapes"⟩ ]

def validate_structure (data : Json) : VResult := runRules rules data

end Agent1

namespace Agent2

/-- Rule table of agent 2's `validate_structure` (Prosit Retour). -/
def rules : List VRule :=
  [ ⟨"definitions", objAtLeast 4, "≥4 définitions requises"⟩,
    ⟨"contexte_rappel", strAtLeast 80, "contexte_rappel trop court"⟩,
    ⟨"besoins", arrAtLeast 2, "≥2 besoins requis"⟩,
    ⟨"contraintes", arrAtLeast 2, "≥2 contraintes requises"⟩,
    ⟨"problematique", strEndsQuestion, "problematique doit finir par ?"⟩,
    ⟨"validation_hypotheses", arrAtLeast 2, "≥2 validations d'hypothèses requises"⟩,
    ⟨"plan_action", arrAtLeast 3, "≥3 étapes dans le plan d'action"⟩,
    ⟨"solutions", arrAtLeast 2, "≥2 solutions requises"⟩,
    ⟨"bilan", strAtLeast 60, "bilan trop court"⟩ ]

def validate_structure (data : Json) : VResult := runRules rules data

end Agent2

namespace Agent3

/-- Rule table of agent 3's `validate_structure` (CER). -/
def rules : List VRule :=
  [ ⟨"contexte", strAtLeast 100, "contexte trop court (≥100 car.)"⟩,
    ⟨"objectifs_savoir", arrAtLeast 4, "≥4 objectifs savoir requis"⟩,
    ⟨"objectifs_savoir_faire", arrAtLeast 4, "≥4 objectifs savoir-faire requis"⟩,
    ⟨"besoins", arrAtLeast 2, "≥2 besoins requis"⟩,
    ⟨"problematique", strEndsQuestion, "problematique doit finir par ?"⟩,
    ⟨"contraintes", arrAtLeast 3, "≥3 contraintes requises"⟩,
    ⟨"realisation", arrAtLeast 3, "≥3 sections de réalisation"⟩,
    ⟨"validation_hypotheses", arrAtLeast 2, "≥2 validations d'hypothèses"⟩,
    ⟨"conclusion", strAtLeast 100, "conclusion trop courte (≥100 car.)"⟩,
    ⟨"synthese", strAtLeast 200, "synthèse trop courte (≥200 car.)"⟩,
    ⟨"methodes_utilisees", arrAtLeast 2, "≥2 méthodes/outils"⟩,
    ⟨"references_bibliographiques", arrAtLeast 3, "≥3 références bibliographiques"⟩ ]

def validate_structure (data : Json) : VResult := runRules rules data

end Agent3

/-! ## Coherence checker — `check_coherence` of agent 2

Compares the Prosit Aller with a (possibly absent) downstream document for
theme, hypothesis-count and terminology mismatches. -/

/-- Substring test `haystack.includes(needle)`. -/
def startsWithL : List Char → List Char → Bool
  | [], _ => true
  | _ :: _, [] => false
  | n :: ns, c :: cs => n = c ∧ startsWithL ns cs

def hasSub (hay needle : List Char) : Bool :=
  if startsWithL needle hay then true
  else
    match hay with
    | [] => false
    | _ :: t => hasSub t needle

/-- Insertion-order deduplication, the model of iterating a JS `Set`. -/
def dedupGo (seen : List (List Char)) : List (List Char) → List (List Char)
  | [] => []
  | x :: xs =>
    if seen.contains x then dedupGo seen xs
    else x :: dedupGo (x :: seen) xs

/-- Template interpolation of a possibly-undefined value. -/
def jsInterp (o : Option Json) : String :=
  match o with
  | none => "undefined"
  | some v => jsToString v

/-- Coercion `String(v || "")`. -/
def jsStringOrEmpty (o : Option Json) : String :=
  match o with
  | some v => if jsTruthy v then jsToString v else ""
  | none => ""

/-- Keys of `Object.keys(v)` for the value shapes that can reach it here:
objects list their distinct keys in first-insertion order, arrays and
strings their index keys, primitives none. -/
def objKeys : Json → List String
  | .obj m => m.keys.eraseDups
  | .arr l => (List.range l.length).map (fun i => String.mk (natChars i))
  | .str s => (List.range s.length).map (fun i => String.mk (natChars i))
  | _ => []

def joinCommaSp : List (List Char) → List Char
  | [] => []
  | [x] => x
  | x :: y :: xs => x ++ ',' :: ' ' :: joinCommaSp (y :: xs)

structure CohResult where
  coherent : Bool
  issues : List String
  deriving DecidableEq

/-- Elements of `pa.mots_cles || []` (a truthy non-array would make the JS
`.map` call throw; theorems over this function assume the field is absent,
falsy or an array). -/
def motsClesElems (pa : Json) : List Json :=
  match pa.getF "mots_cles" with
  | some (.arr l) =>
    let rec toL : JsonList → List Json
      | .nil => []
      | .cons h tl => h :: toL tl
    toL l
  | _ => []

/-- Lowercased, deduplicated upstream keyword set `paMots`. -/
def paKeywords (pa : Json) : List (List Char) :=
  dedupGo [] ((motsClesElems pa).map (fun j => jsLower (jsToString j).data))

/-- Count `Array.isArray(x) ? x.length : 0`. -/
def arrCount (o : Option Json) : Nat :=
  match o with
  | some (.arr l) => l.length
  | _ => 0

def themeIssueMsg (paT prT : Option Json) : String :=
  "Thème incohérent : PA=\"" ++ jsInterp paT ++ "\" vs PR=\"" ++ jsInterp prT ++ "\""

def countIssueMsg (m n : Nat) : String :=
  "Nombre de validations (" ++ String.mk (natChars m) ++ ") < pistes PA (" ++
    String.mk (natChars n) ++ ")"

def termIssueMsg (missing : List (List Char)) : String :=
  "Mots clés PA non définis dans PR : " ++ String.mk (joinCommaSp (missing.take 3))

namespace Agent2

/-- Theme check of `check_coherence`: flag when the lowered downstream theme
is non-empty, differs from the lowered upstream theme and does not contain
its first ten characters. -/
def paThemeL (pa : Json) : List Char :=
  jsLower (jsStringOrEmpty (pa.getF "theme")).data

def prThemeL (pr : Option Json) : List Char :=
  jsLower (jsStringOrEmpty (pr.bind (·.getF "theme"))).data

def themeIssue (pa : Json) (pr : Option Json) : Option String :=
  if prThemeL pr ≠ [] ∧ prThemeL pr ≠ paThemeL pa ∧
      ¬ hasSub (prThemeL pr) ((paThemeL pa).take 10) then
    some (themeIssueMsg (pa.getF "theme") (pr.bind (·.getF "theme")))
  else none

/-- Count check of `check_coherence`: flag when both hypothesis lists are
non-empty and the downstream has fewer validations than the upstream has
solution hypotheses. -/
def paHyposN (pa : Json) : Nat := arrCount (pa.getF "pistes_solution")

def prValidationsN (pr : Option Json) : Nat :=
  arrCount (pr.bind (·.getF "validation_hypotheses"))

def countIssue (pa : Json) (pr : Option Json) : Option String :=
  if 0 < paHyposN pa ∧ 0 < prValidationsN pr ∧ prValidationsN pr < paHyposN pa then
    some (countIssueMsg (prValidationsN pr) (paHyposN pa))
  else none

/-- The keywords of the upstream not covered by any downstream defined term
(coverage = some lowered defined term contains the keyword's first five
characters). -/
def prDefsL (pr : Option Json) : List (List Char) :=
  dedupGo [] ((objKeys (match pr.bind (·.getF "definitions") with
    | some v => if jsTruthy v then v else .obj .nil
    | none => .obj .nil)).map (fun k => jsLower k.data))

def missingKeywords (pa : Json) (pr : Option Json) : List (List Char) :=
  (paKeywords pa).filter (fun m => !((prDefsL pr).any (fun d => hasSub d (m.take 5))))

/-- Terminology check of `check_coherence`: flag when more than two upstream
keywords are uncovered, naming the first three. -/
def termIssue (pa : Json) (pr : Option Json) : Option String :=
  if 2 < (missingKeywords pa pr).length then
    some (termIssueMsg (missingKeywords pa pr))
  else none

/-- Embedding of `check_coherence(pa, pr)` from agent 2: absent upstream is
fatal; otherwise the theme, validation-count and keyword-coverage checks
accumulate issue strings in that order. -/
def allIssues (pa : Json) (pr : Option Json) : List String :=
  (themeIssue pa pr).toList ++ (countIssue pa pr).toList ++ (termIssue pa pr).toList

def check_coherence (pa pr : Option Json) : CohResult :=
  match pa with
  | none => { coherent := false, issues := ["Prosit Aller absent de la mémoire"] }
  | some pa => { coherent := (allIssues pa pr).isEmpty, issues := allIssues pa pr }

end Agent2

/-! ## Shallow merge — the repair step `pa = { ...pa, ...fixed }`

The spread merge keeps the previous object's keys in order with the repair
response's values overriding shared keys, then appends the response's new
keys.  Spreading a non-object contributes nothing here (arrays and strings
would contribute index keys in JS; the stage documents are objects). -/

def JsonMembers.append : JsonMembers → JsonMembers → JsonMembers
  | .nil, b => b
  | .cons k v tl, b => .cons k v (tl.append b)

def overrideVals : JsonMembers → JsonMembers → JsonMembers
  | .nil, _ => .nil
  | .cons k v tl, b => .cons k ((b.get k).getD v) (overrideVals tl b)

def newMembers : JsonMembers → JsonMembers → JsonMembers
  | .nil, _ => .nil
  | .cons k v tl, a =>
    if a.hasKey k then newMembers tl a else .cons k v (newMembers tl a)

def Json.toMembers : Json → JsonMembers
  | .obj m => m
  | _ => .nil

def spreadMembers (a b : JsonMembers) : JsonMembers :=
  (overrideVals a b).append (newMembers b a)

def spreadJson (prev fixed : Json) : Json :=
  .obj (spreadMembers prev.toMembers fixed.toMembers)

/-! ## Shared memory and the stage loops

`Memory` models the fields of `createMemory` that the stage logic reads or
writes (`files.*` are flattened to `filePA`/`filePR`/`fileCER`).  Identity
fields that only ever feed prompt or log text (`rawInput`, `student`,
`promotion`, `annee`) and the append-only `logs` array are omitted: no claim
depends on them and they never influence control flow. -/

structure Memory where
  theme : String
  slug : String
  outputDir : String
  prositAller : Option Json
  prositRetour : Option Json
  cer : Option Json
  filePA : Option String
  filePR : Option String
  fileCER : Option String
  coherenceWarnings : List String
  deriving DecidableEq

/-- Property assignment `o.f = v`: an existing key is updated in place, a
new key is appended (objects only; the stage documents are objects). -/
def JsonMembers.setAll : JsonMembers → String → Json → JsonMembers
  | .nil, _, _ => .nil
  | .cons k w tl, f, v => .cons k (if k = f then v else w) (tl.setAll f v)

def JsonMembers.setF (m : JsonMembers) (f : String) (v : Json) : JsonMembers :=
  if m.hasKey f then m.setAll f v else m.append (.cons f v .nil)

def Json.setF : Json → String → Json → Json
  | .obj m, f, v => .obj (m.setF f v)
  | j, _, _ => j

/-- The raw LLM responses a stage consumes, one per `callLLM` site: the
planning/analysis call, the main drafting call and the conditional repair
call. -/
structure StageResp where
  plan : List Char
  draft : List Char
  repair : List Char
  deriving DecidableEq

/-- Errors a stage throws: agent 2's missing-prerequisite guard and the
extraction errors escaping from `parseJSON`. -/
inductive StageErr where
  | missingPrereq
  | parse (e : PErr)
  deriving DecidableEq

namespace Agent1

/-- Embedding of agent 1's `runAgent`: analysis call, drafting call, theme
default, validation, at most one repair (shallow-merged), then writes to
shared memory (document slot and generated-file path).  The post-repair
re-validation only produces log text; the DOCX generator is an external
collaborator modelled as succeeding; thrown errors are returned alongside
the memory as mutated so far. -/
def runAgent (mem : Memory) (r : StageResp) : Memory × Option StageErr :=
  match parseJSON r.plan with
  | .error e => (mem, some (.parse e))
  | .ok _analysis =>
    match parseJSON r.draft with
    | .error e => (mem, some (.parse e))
    | .ok pa0 =>
      let pa1 := pa0.setF "theme"
        (match pa0.getF "theme" with
         | some v => if jsTruthy v then v else .str mem.theme
         | none => .str mem.theme)
      let v1 := validate_structure pa1
      let step : Except StageErr Json :=
        if v1.valid then .ok pa1
        else
          match parseJSON r.repair with
          | .error e => .error (.parse e)
          | .ok fixed => .ok (spreadJson pa1 fixed)
      match step with
      | .error e => (mem, some e)
      | .ok pa2 =>
        let outPath := mem.outputDir ++ "/01_Prosit_Aller_" ++ mem.slug ++ ".docx"
        ({ mem with prositAller := some pa2, filePA := some outPath }, none)

end Agent1

namespace Agent2

/-- Embedding of agent 2's `runAgent`: prerequisite guard, planning call,
preliminary coherence check (log-only), drafting call, theme default,
validation, PA↔PR coherence check whose issues are appended to the shared
warnings before the single repair, then the shared-memory writes. -/
def runAgent (mem : Memory) (r : StageResp) : Memory × Option StageErr :=
  match mem.prositAller with
  | none => (mem, some .missingPrereq)
  | some pa =>
    match parseJSON r.plan with
    | .error e => (mem, some (.parse e))
    | .ok _plan =>
      let _coh0 := check_coherence (some pa) none
      match parseJSON r.draft with
      | .error e => (mem, some (.parse e))
      | .ok pr0 =>
        let tv : Option Json :=
          match pr0.getF "theme" with
          | some v => if jsTruthy v then some v else pa.getF "theme"
          | none => pa.getF "theme"
        let pr1 := match tv with
          | some v => pr0.setF "theme" v
          | none => pr0
        let v1 := validate_structure pr1
        let coh := check_coherence (some pa) (some pr1)
        let mem1 := if coh.coherent then mem
          else { mem with coherenceWarnings := mem.coherenceWarnings ++ coh.issues }
        let step : Except StageErr Json :=
          if v1.valid then .ok pr1
          else
            match parseJSON r.repair with
            | .error e => .error (.parse e)
            | .ok fixed => .ok (spreadJson pr1 fixed)
        match step with
        | .error e => (mem1, some e)
        | .ok pr2 =>
          let outPath := mem1.outputDir ++ "/02_Prosit_Retour_" ++ mem1.slug ++ ".pptx"
          ({ mem1 with prositRetour := some pr2, filePR := some outPath }, none)

end Agent2

namespace Agent3

/-- Embedding of agent 3's `runAgent`: source selection (PR if present, else
PA, else an empty object), planning call, drafting call, theme default
chain, validation, at most one repair, then the shared-memory writes.  The
`analyze_memory` call only feeds prompt and log text and is omitted; no
coherence check exists in this stage. -/
def runAgent (mem : Memory) (r : StageResp) : Memory × Option StageErr :=
  let src : Json := match mem.prositRetour with
    | some pr => pr
    | none => mem.prositAller.getD (.obj .nil)
  match parseJSON r.plan with
  | .error e => (mem, some (.parse e))
  | .ok _plan =>
    match parseJSON r.draft with
    | .error e => (mem, some (.parse e))
    | .ok cer0 =>
      let t1 : Option Json :=
        match cer0.getF "theme" with
        | some v => if jsTruthy v then some v else none
        | none => none
      let t2 : Option Json :=
        match t1 with
        | some v => some v
        | none =>
          match src.getF "theme" with
          | some v => if jsTruthy v then some v else none
          | none => none
      let cer1 := cer0.setF "theme" (t2.getD (.str mem.theme))
      let v1 := validate_structure cer1
      let step : Except StageErr Json :=
        if v1.valid then .ok cer1
        else
          match parseJSON r.repair with
          | .error e => .error (.parse e)
          | .ok fixed => .ok (spreadJson cer1 fixed)
      match step with
      | .error e => (mem, some e)
      | .ok cer2 =>
        let outPath := mem.outputDir ++ "/03_CER_" ++ mem.slug ++ ".docx"
        ({ mem with cer := some cer2, fileCER := some outPath }, none)

end Agent3

/-! ## Orchestrator — `run` of `orchestrator.js` -/

inductive Mode where
  | full
  | from_pa
  | from_pr
  deriving DecidableEq

structure RunResps where
  a1 : StageResp
  a2 : StageResp
  a3 : StageResp
  deriving DecidableEq

namespace Orchestrator

/-- Embedding of the orchestrator's `run`: agent 1 in `full` mode only,
agent 2 unless the mode is `from_pr` or `skipPR` is set, agent 3 always; a
stage's thrown error propagates immediately, unmodified, without invoking
any later stage.  Logging and the final summary entry affect only log text
and are omitted. -/
def run (mem : Memory) (mode : Mode) (skipPR : Bool) (r : RunResps) :
    Memory × Option StageErr :=
  match (if mode = .full then Agent1.runAgent mem r.a1 else (mem, none)) with
  | (m1, some e) => (m1, some e)
  | (m1, none) =>
    match (if mode ≠ .from_pr ∧ ¬ skipPR then Agent2.runAgent m1 r.a2 else (m1, none)) with
    | (m2, some e) => (m2, some e)
    | (m2, none) => Agent3.runAgent m2 r.a3

end Orchestrator

/-! ## Slug derivation — `createMemory` of `orchestrator.js` -/

/-- NFD decomposition, modelled for the Latin-1 accented lowercase letters
(the uppercase ones are lowered first by `toLowerCase`); characters outside
the table are returned undecomposed. -/
def nfdChar (c : Char) : List Char :=
  let n := c.toNat
  if n = 0xE0 then ['a', Char.ofNat 0x300]
  else if n = 0xE1 then ['a', Char.ofNat 0x301]
  else if n = 0xE2 then ['a', Char.ofNat 0x302]
  else if n = 0xE3 then ['a', Char.ofNat 0x303]
  else if n = 0xE4 then ['a', Char.ofNat 0x308]
  else if n = 0xE5 then ['a', Char.ofNat 0x30A]
  else if n = 0xE7 then ['c', Char.ofNat 0x327]
  else if n = 0xE8 then ['e', Char.ofNat 0x300]
  else if n = 0xE9 then ['e', Char.ofNat 0x301]
  else if n = 0xEA then ['e', Char.ofNat 0x302]
  else if n = 0xEB then ['e', Char.ofNat 0x308]
  else if n = 0xEC then ['i', Char.ofNat 0x300]
  else if n = 0xED then ['i', Char.ofNat 0x301]
  else if n = 0xEE then ['i', Char.ofNat 0x302]
  else if n = 0xEF then ['i', Char.ofNat 0x308]
  else if n = 0xF1 then ['n', Char.ofNat 0x303]
  else if n = 0xF2 then ['o', Char.ofNat 0x300]
  else if n = 0xF3 then ['o', Char.ofNat 0x301]
  else if n = 0xF4 then ['o', Char.ofNat 0x302]
  else if n = 0xF5 then ['o', Char.ofNat 0x303]
  else if n = 0xF6 then ['o', Char.ofNat 0x308]
  else if n = 0xF9 then ['u', Char.ofNat 0x300]
  else if n = 0xFA then ['u', Char.ofNat 0x301]
  else if n = 0xFB then ['u', Char.ofNat 0x302]
  else if n = 0xFC then ['u', Char.ofNat 0x308]
  else if n = 0xFD then ['y', Char.ofNat 0x301]
  else if n = 0xFF then ['y', Char.ofNat 0x308]
  else [c]

def isCombining (c : Char) : Bool :=
  0x300 ≤ c.toNat ∧ c.toNat ≤ 0x36F

def isSlugGood (c : Char) : Bool :=
  (97 ≤ c.toNat ∧ c.toNat ≤ 122) ∨ isDigitCh c

/-- Global replace `/[^a-z0-9]+/g → "_"`: every maximal run of characters
outside `[a-z0-9]` becomes a single underscore. -/
def collapseGo : Bool → List Char → List Char
  | _, [] => []
  | prevBad, c :: cs =>
    if isSlugGood c then c :: collapseGo false cs
    else if prevBad then collapseGo true cs
    else '_' :: collapseGo true cs

def dropLeadUnderscore (l : List Char) : List Char :=
  if l.head? = some '_' then l.tail else l

def dropTrailUnderscore (l : List Char) : List Char :=
  if l.getLast? = some '_' then l.dropLast else l

/-- Replace `/^_|_$/g → ""`: one leading and one trailing underscore are
removed. -/
def stripEdgeUnderscores (l : List Char) : List Char :=
  dropTrailUnderscore (dropLeadUnderscore l)

/-- The slug computation of `createMemory` (orchestrator.js lines 54-59). -/
def slugOfTheme (theme : String) : String :=
  let cs := (jsLower theme.data).flatMap nfdChar
  let cs2 := cs.filter (fun c => ¬ isCombining c)
  String.mk ((stripEdgeUnderscores (collapseGo false cs2)).take 35)

/-- The slug a run derives from the caller-supplied theme, including the
`params.theme || "Prosit"` fallback. -/
def createMemorySlug (theme : String) : String :=
  slugOfTheme (if theme = "" then "Prosit" else theme)

/-! ## Canonical serialization and noise wrapping

For the extraction-idempotence property the "syntactically valid JSON
object/array strings" are the canonical serializations of JSON values.
`goodV` restricts string scalars and object keys to characters that are
inert for every string-rewriting pass of the extractor: no quotes,
backslashes, backticks, braces, brackets or commas (whitespace and all other
characters are allowed).  Backticks in a string would be eaten by the fence
strip, braces/brackets would disturb the depth scan, and a comma followed by
whitespace and a closer would be rewritten by the trailing-comma strip — each
of these breaks the property, so they are excluded. -/

def contentOk (c : Char) : Bool :=
  ¬ (c = dq ∨ c = bslash ∨ c = btick ∨ c = lcurly ∨ c = lsq ∨ c = rcurly ∨ c = rsq ∨ c = ',')

/-- Characters the bracket scan passes over without any state change. -/
def neutralCh (c : Char) : Bool :=
  ¬ (c = bslash ∨ c = dq ∨ c = lcurly ∨ c = lsq ∨ c = rcurly ∨ c = rsq)

mutual

def goodV : Json → Bool
  | .str s => s.data.all contentOk
  | .num _ => true
  | .bool _ => true
  | .null => true
  | .arr l => goodL l
  | .obj m => goodM m

def goodL : JsonList → Bool
  | .nil => true
  | .cons h tl => goodV h && goodL tl

def goodM : JsonMembers → Bool
  | .nil => true
  | .cons k v tl => k.data.all contentOk && goodV v && goodM tl

end

def strLit (s : String) : List Char := dq :: s.data ++ [dq]

mutual

/-- Canonical serialization of a JSON value (no insignificant whitespace,
integer numbers), the `JSON.stringify` normal form. -/
def sVal : Json → List Char
  | .str s => strLit s
  | .num n => intChars n
  | .bool b => if b then "true".data else "false".data
  | .null => "null".data
  | .arr .nil => [lsq, rsq]
  | .arr (.cons h tl) => lsq :: (sVal h ++ (sArrRest tl ++ [rsq]))
  | .obj .nil => [lcurly, rcurly]
  | .obj (.cons k v tl) => lcurly :: (strLit k ++ ':' :: (sVal v ++ (sMemRest tl ++ [rcurly])))

def sArrRest : JsonList → List Char
  | .nil => []
  | .cons h tl => ',' :: (sVal h ++ sArrRest tl)

def sMemRest : JsonMembers → List Char
  | .nil => []
  | .cons k v tl => ',' :: (strLit k ++ ':' :: (sVal v ++ sMemRest tl))

end

def isComposite : Json → Bool
  | .arr _ => true
  | .obj _ => true
  | _ => false

/-- The fence-marker wrappings: a ```json fence or a plain ``` fence, closed
by a ``` fence on its own line. -/
inductive Fence where
  | json
  | plain
  deriving DecidableEq

def fenceOpen : Fence → List Char
  | .json => "```json
".data
  | .plain => "```
".data

def fenceClose : List Char := "
```".data

/-- Characters allowed in the prose before the fenced block: anything except
backticks (which interact with the fence strip) and opening braces/brackets
(which would be mistaken for the start of the JSON). -/
def noiseOk (c : Char) : Bool :=
  ¬ (c = btick ∨ c = lcurly ∨ c = lsq)

/-- The wrapped LLM response `prose_before + fence + s + fence + prose_after`. -/
def c6wrap (pb : List Char) (fk : Fence) (s pa : List Char) : List Char :=
  pb ++ (fenceOpen fk ++ (s ++ (fenceClose ++ pa)))

/-! ## Auxiliary predicates and concrete instances -/

/-- List-notation helper for `JsonList`. -/
def jl : List Json → JsonList
  | [] => .nil
  | x :: xs => .cons x (jl xs)

/-- List-notation helper for `JsonMembers`. -/
def jm : List (String × Json) → JsonMembers
  | [] => .nil
  | (k, v) :: xs => .cons k v (jm xs)

/-- A fresh shared memory with the given identity fields and imported
document slots, as `createMemory` builds it. -/
def mkMem (theme slug outputDir : String) (pa pr : Option Json) : Memory :=
  { theme := theme, slug := slug, outputDir := outputDir, prositAller := pa,
    prositRetour := pr, cer := none, filePA := none, filePR := none,
    fileCER := none, coherenceWarnings := [] }

/-- Shape guard for the `mots_cles` field: in JS, `(pa.mots_cles || []).map`
throws a `TypeError` when the field holds a truthy non-array, a situation
the stage documents never produce; theorems about `check_coherence` assume
the field is absent, falsy or an array so that the model coincides with the
JS behaviour. -/
def motsClesOk (pa : Json) : Bool :=
  match pa.getF "mots_cles" with
  | none => true
  | some (.arr _) => true
  | some v => !jsTruthy v

/-- Characters allowed in a slug. -/
def slugAlphabet (c : Char) : Bool :=
  isSlugGood c ∨ c = '_'

def c1mem : Memory :=
  mkMem "Thème" "theme" "out" (some (.obj (jm [("theme", .str "PA")]))) none

def c1resp : StageResp :=
  ⟨"aucun json ici".data, "\x7b\x7d".data, "\x7b\x7d".data⟩

def c1cMem : Memory :=
  mkMem "Réseaux" "reseaux" "out" none (some (.obj (jm [("theme", .str "Réseaux")])))

def c1cResp : StageResp :=
  ⟨"je réfléchis sans produire de JSON".data, "\x7b\"theme\":\"Réseaux\"\x7d".data,
    "\x7b\x7d".data⟩

def c2pa : JsonMembers := jm
  [ ("theme", .str "Sécurité des systèmes"),
    ("mots_cles", .arr (jl [.str "audit", .str "pare-feu", .str "sauvegarde",
      .str "chiffrement", .str "risque"])),
    ("contexte", .str "Dans une entreprise industrielle camerounaise, la direction constate des incidents récurrents de sécurité informatique affectant la production et la confiance des clients."),
    ("definition_besoins", .arr (jl [.str "Comprendre les menaces",
      .str "Évaluer les vulnérabilités"])),
    ("problematique", .str "Comment sécuriser durablement le système d'information ?"),
    ("contraintes", .arr (jl [.str "Budget limité", .str "Délais courts",
      .str "Personnel restreint"])),
    ("generalisation", .str "Comment maîtriser un risque opérationnel récurrent ?"),
    ("pistes_solution", .arr (jl [.str "Mettre en place un audit ?",
      .str "Former les équipes ?"])),
    ("plan_action", .arr (jl [.str "Étape 1", .str "Étape 2", .str "Étape 3",
      .str "Étape 4"])) ]

def c2fix : JsonMembers :=
  jm [("contexte", .str "Texte entièrement réécrit par la réparation.")]

def c2wPrev : JsonMembers := jm [("a", .num 1), ("b", .str "x")]

def c2wFix : JsonMembers := jm [("b", .str "y")]

def c3wPa : Json :=
  .obj (jm [("theme", .str "Alpha"), ("mots_cles", .arr (jl [.str "securite", .str "reseau"]))])

def c3cPa : Json :=
  .obj (jm [("mots_cles", .arr (jl [.str "aaaaa", .str "bbbbb", .str "ccccc"]))])

def c4wPa : Json :=
  .obj (jm [("theme", .str "alpha"),
    ("pistes_solution", .arr (jl [.str "p1", .str "p2", .str "p3"]))])

def c4wPr : Json :=
  .obj (jm [("theme", .str "alpha"),
    ("validation_hypotheses", .arr (jl [.str "v1"]))])

def c4cPa : Json :=
  .obj (jm [("theme", .str "beta"),
    ("pistes_solution", .arr (jl [.str "p1", .str "p2"]))])

def c4cPr : Json :=
  .obj (jm [("theme", .str "beta"), ("validation_hypotheses", .arr (jl []))])

def c5mem : Memory :=
  mkMem "Cloud migration" "cloud_migration" "out" none
    (some (.obj (jm [("theme", .str "alpha beta gamma")])))

def c5resp : StageResp :=
  ⟨"\x7b\x7d".data, "\x7b\"theme\":\"zzz\"\x7d".data, "\x7b\x7d".data⟩

def c6j : Json :=
  .obj (jm [("a", .num 1), ("b", .arr (jl [.str "x y", .null, .bool true]))])

def c6bad : List Char := "Result: \x7b```json\n[1]\n``` done".data

def c8doc : Json :=
  .obj (jm [("problematique", .str "Pourquoi ?"), ("mots_cles", .str "pas un tableau")])

def c9mem : Memory := mkMem "T" "t" "out" none none

def c9r : RunResps :=
  ⟨⟨"\x7b\x7d".data, "\x7b\"theme\":\"T\"\x7d".data, "\x7b\x7d".data⟩,
   ⟨"rien".data, "\x7b\x7d".data, "\x7b\x7d".data⟩,
   ⟨"\x7b\x7d".data, "\x7b\x7d".data, "\x7b\x7d".data⟩⟩

def c9m1 : Memory :=
  { c9mem with
    prositAller := some (.obj (jm [("theme", .str "T")])),
    filePA := some "out/01_Prosit_Aller_t.docx" }

/-- Run responses whose stage-1 planning response holds no JSON. -/
def c9rA : RunResps :=
  ⟨⟨"rien".data, "\x7b\x7d".data, "\x7b\x7d".data⟩,
   ⟨"\x7b\x7d".data, "\x7b\x7d".data, "\x7b\x7d".data⟩,
   ⟨"\x7b\x7d".data, "\x7b\x7d".data, "\x7b\x7d".data⟩⟩

/-- Run responses whose stage-3 planning response holds no JSON. -/
def c9rC : RunResps :=
  ⟨⟨"\x7b\x7d".data, "\x7b\x7d".data, "\x7b\x7d".data⟩,
   ⟨"\x7b\x7d".data, "\x7b\x7d".data, "\x7b\x7d".data⟩,
   ⟨"pas de json".data, "\x7b\x7d".data, "\x7b\x7d".data⟩⟩

/-! # Theorems

Helper lemmas first, then one theorem per claim (with witnesses and
counterexamples where the claim's status requires them). -/

/-- Structural induction principle for the member-list spine of
`JsonMembers` (the mutually inductive family has no directly usable
`induction` eliminator). -/
theorem jmInd (P : JsonMembers → Prop) (hn : P .nil)
    (hc : ∀ k v tl, P tl → P (.cons k v tl)) : ∀ m, P m
  | .nil => hn
  | .cons k v tl => hc k v tl (jmInd P hn hc tl)

/-- Structural induction principle for the element-list spine of
`JsonList`. -/
theorem jlInd (P : JsonList → Prop) (hn : P .nil)
    (hc : ∀ hd tl, P tl → P (.cons hd tl)) : ∀ l, P l
  | .nil => hn
  | .cons hd tl => hc hd tl (jlInd P hn hc tl)

theorem jm_get_append (a b : JsonMembers) (f : String) :
    (a.append b).get f = (b.get f).or (a.get f) := by
  induction a using jmInd with
  | hn =>
    show b.get f = (b.get f).or ((JsonMembers.nil).get f)
    cases b.get f <;> rfl
  | hc k v tl ih =>
    show (match (tl.append b).get f with
      | some w => some w
      | none => if k = f then some v else none) = _
    rw [ih]
    cases b.get f <;> rfl

theorem overrideVals_get (a b : JsonMembers) (f : String) :
    (overrideVals a b).get f = (a.get f).map (fun v => (b.get f).getD v) := by
  induction a using jmInd with
  | hn => rfl
  | hc k v tl ih =>
    show (match (overrideVals tl b).get f with
      | some w => some w
      | none => if k = f then some ((b.get k).getD v) else none) = _
    rw [ih]
    cases h : tl.get f with
    | some u =>
      show some ((b.get f).getD u) = _
      show _ = (match tl.get f with
        | some w => some w
        | none => if k = f then some v else none).map _
      rw [h]
      rfl
    | none =>
      show (if k = f then some ((b.get k).getD v) else none) = _
      show _ = (match tl.get f with
        | some w => some w
        | none => if k = f then some v else none).map _
      rw [h]
      by_cases hk : k = f
      · subst hk; simp
      · simp [hk]

theorem newMembers_get_of_hasKey (b : JsonMembers) (a : JsonMembers) (f : String)
    (h : a.hasKey f = true) : (newMembers b a).get f = none := by
  induction b using jmInd with
  | hn => rfl
  | hc k v tl ih =>
    show (if a.hasKey k then newMembers tl a else .cons k v (newMembers tl a)).get f = none
    by_cases hk : a.hasKey k
    · rw [if_pos hk]; exact ih
    · rw [if_neg hk]
      show (match (newMembers tl a).get f with
        | some w => some w
        | none => if k = f then some v else none) = none
      rw [ih]
      have : k ≠ f := fun he => hk (he ▸ h)
      simp [this]

theorem newMembers_get_of_not_hasKey (b : JsonMembers) (a : JsonMembers) (f : String)
    (h : a.hasKey f = false) : (newMembers b a).get f = b.get f := by
  induction b using jmInd with
  | hn => rfl
  | hc k v tl ih =>
    show (if a.hasKey k then newMembers tl a else .cons k v (newMembers tl a)).get f =
      (JsonMembers.cons k v tl).get f
    by_cases hk : a.hasKey k
    · rw [if_pos hk, ih]
      have : k ≠ f := fun he => by rw [he, h] at hk; exact Bool.noConfusion hk
      show tl.get f = (match tl.get f with
        | some w => some w
        | none => if k = f then some v else none)
      cases tl.get f with
      | some w => rfl
      | none => simp [this]
    · rw [if_neg hk]
      show (match (newMembers tl a).get f with
        | some w => some w
        | none => if k = f then some v else none) = _
      rw [ih]
      rfl

/-- C2 (amended): the repair step's shallow merge `{ ...prev, ...fixed }`
retains the pre-repair value of every top-level field that is absent from
the repair response, and overrides with the response's value every field
present in it — whether or not the field was named in the validation errors
that triggered the repair. -/
theorem c2_repair_merge_contract (pm fm : JsonMembers) (f : String) :
    (fm.hasKey f = false →
      (spreadJson (.obj pm) (.obj fm)).getF f = (Json.obj pm).getF f)
    ∧ (fm.hasKey f = true →
      (spreadJson (.obj pm) (.obj fm)).getF f = (Json.obj fm).getF f) := by
  constructor
  · intro h
    have hf : fm.get f = none := by
      unfold JsonMembers.hasKey at h
      cases hg : fm.get f with
      | none => rfl
      | some w => rw [hg] at h; exact Bool.noConfusion h
    show (spreadMembers pm fm).get f = pm.get f
    unfold spreadMembers
    rw [jm_get_append, overrideVals_get]
    have hn : (newMembers fm pm).get f = none := by
      by_cases hp : pm.hasKey f
      · exact newMembers_get_of_hasKey fm pm f hp
      · rw [newMembers_get_of_not_hasKey fm pm f (by simpa using hp)]; exact hf
    rw [hn, hf]
    cases pm.get f <;> rfl
  · intro h
    obtain ⟨w, hw⟩ : ∃ w, fm.get f = some w := by
      unfold JsonMembers.hasKey at h
      cases hg : fm.get f with
      | none => rw [hg] at h; exact Bool.noConfusion h
      | some w => exact ⟨w, rfl⟩
    show (spreadMembers pm fm).get f = fm.get f
    unfold spreadMembers
    rw [jm_get_append, overrideVals_get]
    by_cases hp : pm.hasKey f
    · rw [newMembers_get_of_hasKey fm pm f hp]
      obtain ⟨u, hu⟩ : ∃ u, pm.get f = some u := by
        unfold JsonMembers.hasKey at hp
        cases hg : pm.get f with
        | none => rw [hg] at hp; exact Bool.noConfusion hp
        | some u => exact ⟨u, rfl⟩
      rw [hu, hw]; rfl
    · rw [newMembers_get_of_not_hasKey fm pm f (by simpa using hp), hw]
      cases pm.get f <;> rfl

/-- Witness for `c2_repair_merge_contract` at a concrete merge. -/
theorem c2_repair_merge_contract_witness :
    c2wFix.hasKey "a" = false
    ∧ (spreadJson (.obj c2wPrev) (.obj c2wFix)).getF "a" = (Json.obj c2wPrev).getF "a" :=
  ⟨by decide, (c2_repair_merge_contract c2wPrev c2wFix "a").1 (by decide)⟩

/-- C2 counterexample: a Prosit Aller whose only validation error names
`mots_cles`, repaired with a response that also rewrites `contexte` — the
unflagged `contexte` field does not retain its pre-repair value, refuting the
claim as stated (the merge takes every field of the repair response). -/
theorem c2_repair_overrides_unflagged_counterexample :
    (Agent1.validate_structure (.obj c2pa)).errors = ["[mots_cles] ≥6 mots clés requis"]
    ∧ (spreadJson (.obj c2pa) (.obj c2fix)).getF "contexte" ≠ (Json.obj c2pa).getF "contexte" :=
  ⟨by decide, by decide⟩

/-- C7: for every string and every truncation point, the extractor returns a
parsed JSON value or fails with one of the two defined extraction errors
(no JSON found, or unparsable once the repair attempts are exhausted); the
embedding is a total function into exactly these outcomes, mirroring the JS
code whose only throw sites are the explicit no-JSON `Error` and the final
`JSON.parse` `SyntaxError`. -/
theorem c7_truncation_safety (s : List Char) (k : Nat) :
    (∃ v, parseJSON (s.take k) = .ok v) ∨
      parseJSON (s.take k) = .error .noJsonFound ∨
      parseJSON (s.take k) = .error .unparsable := by
  cases h : parseJSON (s.take k) with
  | ok v => exact Or.inl ⟨v, rfl⟩
  | error e =>
    cases e with
    | noJsonFound => exact Or.inr (Or.inl rfl)
    | unparsable => exact Or.inr (Or.inr rfl)

/-- C1 (amended): in every generation stage, when extraction of the
planning/analysis response fails, the stage aborts immediately with that
extraction error — memory untouched, drafting never reached; there is no
empty-plan fallback. -/
theorem c1_plan_extraction_failure_aborts (mem : Memory) (r : StageResp) (e : PErr) :
    (parseJSON r.plan = .error e → Agent1.runAgent mem r = (mem, some (.parse e)))
    ∧ (∀ pa, mem.prositAller = some pa → parseJSON r.plan = .error e →
        Agent2.runAgent mem r = (mem, some (.parse e)))
    ∧ (parseJSON r.plan = .error e → Agent3.runAgent mem r = (mem, some (.parse e))) := by
  refine ⟨fun h => ?_, fun pa hpa h => ?_, fun h => ?_⟩
  · unfold Agent1.runAgent; rw [h]
  · unfold Agent2.runAgent; rw [hpa, h]
  · unfold Agent3.runAgent; rw [h]

/-- Witness for `c1_plan_extraction_failure_aborts`: a plan response with no
JSON makes all three stages return the extraction error. -/
theorem c1_plan_extraction_failure_aborts_witness :
    parseJSON c1resp.plan = .error .noJsonFound
    ∧ Agent1.runAgent c1mem c1resp = (c1mem, some (.parse .noJsonFound))
    ∧ Agent2.runAgent c1mem c1resp = (c1mem, some (.parse .noJsonFound))
    ∧ Agent3.runAgent c1mem c1resp = (c1mem, some (.parse .noJsonFound)) :=
  ⟨by decide,
   (c1_plan_extraction_failure_aborts c1mem c1resp .noJsonFound).1 (by decide),
   (c1_plan_extraction_failure_aborts c1mem c1resp .noJsonFound).2.1
     (.obj (jm [("theme", .str "PA")])) (by decide) (by decide),
   (c1_plan_extraction_failure_aborts c1mem c1resp .noJsonFound).2.2 (by decide)⟩

/-- C1 counterexample: stage 3 run with a planning response containing no
JSON aborts with the extraction error and writes nothing, even though the
drafting response parses fine — the stage does not proceed with an empty
plan object to the drafting step. -/
theorem c1_plan_extraction_failure_counterexample :
    parseJSON c1cResp.draft = .ok (.obj (jm [("theme", .str "Réseaux")]))
    ∧ Agent3.runAgent c1cMem c1cResp = (c1cMem, some (.parse .noJsonFound)) :=
  ⟨by decide, by decide⟩

/-- C5 (amended): stage 3 (CER) never invokes the coherence checker and
leaves the shared memory's coherence-warnings list unchanged on every path;
only stage 2 runs `check_coherence` against its upstream. -/
theorem c5_stage3_never_touches_warnings (mem : Memory) (r : StageResp) :
    (Agent3.runAgent mem r).1.coherenceWarnings = mem.coherenceWarnings := by
  unfold Agent3.runAgent
  cases parseJSON r.plan with
  | error e => rfl
  | ok p =>
    cases parseJSON r.draft with
    | error e => rfl
    | ok cer0 =>
      dsimp only
      split <;> rfl

/-- C3 (amended): for a non-null upstream document (with a well-shaped
keyword field) holding at most two distinct keywords, the coherence check
against a null downstream yields `coherent = true` with no issues; with more
than two keywords the terminology check fires against the empty definition
set, so absence of the upstream is not the sole possible failure. -/
theorem check_coherence_some (pa : Json) (pr : Option Json) :
    Agent2.check_coherence (some pa) pr =
      { coherent := (Agent2.allIssues pa pr).isEmpty,
        issues := Agent2.allIssues pa pr } := rfl

theorem c3_null_downstream (pa : Json) (_hm : motsClesOk pa = true)
    (hk : (paKeywords pa).length ≤ 2) :
    Agent2.check_coherence (some pa) none = ⟨true, []⟩ := by
  have h1 : Agent2.themeIssue pa none = none := by
    unfold Agent2.themeIssue
    exact if_neg (fun h => h.1 rfl)
  have h2 : Agent2.countIssue pa none = none := by
    unfold Agent2.countIssue
    exact if_neg (fun h => Nat.lt_irrefl 0 h.2.1)
  have h3 : Agent2.termIssue pa none = none := by
    have hmk : Agent2.missingKeywords pa none = paKeywords pa := by
      unfold Agent2.missingKeywords
      rw [show Agent2.prDefsL none = [] from rfl]
      simp
    unfold Agent2.termIssue
    rw [hmk]
    exact if_neg (by omega)
  rw [check_coherence_some]
  unfold Agent2.allIssues
  rw [h1, h2, h3]
  rfl

/-- Witness for `c3_null_downstream` at a concrete upstream with two
keywords. -/
theorem c3_null_downstream_witness :
    motsClesOk c3wPa = true ∧ (paKeywords c3wPa).length ≤ 2
    ∧ Agent2.check_coherence (some c3wPa) none = ⟨true, []⟩ :=
  ⟨by decide, by decide, c3_null_downstream c3wPa (by decide) (by decide)⟩

/-- C3 counterexample: a non-null upstream with three keywords checked
against a null downstream yields `coherent = false` with a terminology
issue, refuting the claim that the result is always coherent with an empty
issue list. -/
theorem c3_null_downstream_counterexample :
    Agent2.check_coherence (some c3cPa) none =
      ⟨false, ["Mots clés PA non définis dans PR : aaaaa, bbbbb, ccccc"]⟩ := by
  decide

/-- C4 (amended): when the upstream lists `N ≥ 1` solution hypotheses and
the downstream lists `M` hypothesis validations with `1 ≤ M < N`, the
checker flags the count-consistency issue and returns `coherent = false`;
for `M = 0` the guard `prValidations > 0` suppresses the flag. -/
theorem c4_count_gap_flagged (pa pr : Json) (_hm : motsClesOk pa = true)
    (h1 : 0 < arrCount (pr.getF "validation_hypotheses"))
    (h2 : arrCount (pr.getF "validation_hypotheses") < arrCount (pa.getF "pistes_solution")) :
    countIssueMsg (arrCount (pr.getF "validation_hypotheses"))
        (arrCount (pa.getF "pistes_solution"))
      ∈ (Agent2.check_coherence (some pa) (some pr)).issues
    ∧ (Agent2.check_coherence (some pa) (some pr)).coherent = false := by
  have hc : Agent2.countIssue pa (some pr) =
      some (countIssueMsg (arrCount (pr.getF "validation_hypotheses"))
        (arrCount (pa.getF "pistes_solution"))) := by
    unfold Agent2.countIssue
    exact if_pos ⟨Nat.lt_of_le_of_lt (Nat.zero_le _) h2, h1, h2⟩
  rw [check_coherence_some]
  constructor
  · show countIssueMsg (arrCount (pr.getF "validation_hypotheses"))
      (arrCount (pa.getF "pistes_solution")) ∈ Agent2.allIssues pa (some pr)
    unfold Agent2.allIssues
    rw [hc]
    simp
  · show (Agent2.allIssues pa (some pr)).isEmpty = false
    unfold Agent2.allIssues
    rw [hc]
    simp

/-- Witness for `c4_count_gap_flagged` at a concrete pair with three
hypotheses upstream and one validation downstream. -/
theorem c4_count_gap_flagged_witness :
    motsClesOk c4wPa = true
    ∧ 0 < arrCount (c4wPr.getF "validation_hypotheses")
    ∧ arrCount (c4wPr.getF "validation_hypotheses") < arrCount (c4wPa.getF "pistes_solution")
    ∧ (countIssueMsg (arrCount (c4wPr.getF "validation_hypotheses"))
          (arrCount (c4wPa.getF "pistes_solution"))
        ∈ (Agent2.check_coherence (some c4wPa) (some c4wPr)).issues
      ∧ (Agent2.check_coherence (some c4wPa) (some c4wPr)).coherent = false) :=
  ⟨by decide, by decide, by decide,
   c4_count_gap_flagged c4wPa c4wPr (by decide) (by decide) (by decide)⟩

/-- C4 counterexample: with two upstream hypotheses and zero downstream
validations (`M = 0 < N`), no count issue is flagged and the result is
coherent, refuting the claim that every `M < N` (including `M = 0`) is
flagged. -/
theorem c4_zero_validations_counterexample :
    arrCount (c4cPr.getF "validation_hypotheses") = 0
    ∧ 0 < arrCount (c4cPa.getF "pistes_solution")
    ∧ Agent2.check_coherence (some c4cPa) (some c4cPr) = ⟨true, []⟩ :=
  ⟨by decide, by decide, by decide⟩

/-- Injectivity transfer: in a list whose image under `f` has no duplicates,
membership of `f r` in the image of a filtered sublist decides the filter
predicate at `r`. -/
theorem mem_map_filter_iff {α β : Type} (f : α → β) (p : α → Bool) (l : List α)
    (hnd : (l.map f).Nodup) (r : α) (hr : r ∈ l) :
    f r ∈ (l.filter p).map f ↔ p r = true := by
  constructor
  · intro h
    obtain ⟨r', hr', he⟩ := List.mem_map.mp h
    have hr'l : r' ∈ l := List.mem_of_mem_filter hr'
    have : r' = r := List.inj_on_of_nodup_map hnd hr'l hr he
    subst this
    exact (List.mem_filter.mp hr').2
  · intro h
    exact List.mem_map.mpr ⟨r, List.mem_filter.mpr ⟨hr, h⟩, rfl⟩

theorem runRules_valid_iff (rules : List VRule) (d : Json) :
    ((runRules rules d).valid = true ↔ (runRules rules d).errors = []) := by
  show ((ruleErrors rules d).isEmpty = true ↔ ruleErrors rules d = [])
  cases ruleErrors rules d <;> simp

/-- C8: for every document (missing fields read as empty defaults before
rule evaluation), each stage validator returns as errors the `[field]
message` strings of exactly the rules whose predicate fails, in rule-table
order (a subsequence of the full table's messages containing precisely the
failing ones); the score is the rounded percentage of passing rules and
`valid` holds iff no error; the embedding is a total pure function, which
captures determinism, absence of side effects and of thrown errors. -/
theorem c8_validator_contract (d : Json) :
    ((Agent1.validate_structure d).errors.Sublist (Agent1.rules.map fmtRule)
      ∧ (∀ r ∈ Agent1.rules,
          (fmtRule r ∈ (Agent1.validate_structure d).errors ↔
            r.check (fieldOrEmpty d r.field) = false))
      ∧ (Agent1.validate_structure d).score =
          roundScore Agent1.rules.length (Agent1.validate_structure d).errors.length
      ∧ ((Agent1.validate_structure d).valid = true ↔
          (Agent1.validate_structure d).errors = []))
    ∧ ((Agent3.validate_structure d).errors.Sublist (Agent3.rules.map fmtRule)
      ∧ (∀ r ∈ Agent3.rules,
          (fmtRule r ∈ (Agent3.validate_structure d).errors ↔
            r.check (fieldOrEmpty d r.field) = false))
      ∧ (Agent3.validate_structure d).score =
          roundScore Agent3.rules.length (Agent3.validate_structure d).errors.length
      ∧ ((Agent3.validate_structure d).valid = true ↔
          (Agent3.validate_structure d).errors = [])) := by
  have sub : ∀ rules : List VRule, (ruleErrors rules d).Sublist (rules.map fmtRule) := by
    intro rules
    exact List.Sublist.map fmtRule (List.filter_sublist _)
  have mem : ∀ (rules : List VRule), (rules.map fmtRule).Nodup → ∀ r ∈ rules,
      (fmtRule r ∈ ruleErrors rules d ↔ r.check (fieldOrEmpty d r.field) = false) := by
    intro rules hnd r hr
    unfold ruleErrors
    rw [mem_map_filter_iff fmtRule _ rules hnd r hr]
    cases r.check (fieldOrEmpty d r.field) <;> simp
  exact ⟨⟨sub Agent1.rules, mem Agent1.rules (by decide), rfl,
          runRules_valid_iff Agent1.rules d⟩,
         ⟨sub Agent3.rules, mem Agent3.rules (by decide), rfl,
          runRules_valid_iff Agent3.rules d⟩⟩

/-- Witness for `c8_validator_contract` at a concrete partial document. -/
theorem c8_validator_contract_witness :
    (Agent1.validate_structure c8doc).errors.Sublist (Agent1.rules.map fmtRule)
    ∧ (Agent1.validate_structure c8doc).score =
        roundScore Agent1.rules.length (Agent1.validate_structure c8doc).errors.length :=
  ⟨(c8_validator_contract c8doc).1.1, (c8_validator_contract c8doc).1.2.2.1⟩

/-- C5 counterexample: stage 3 executes with an upstream Prosit Retour in
shared memory and produces a CER whose theme is incoherent with it (the
checker, had it been invoked as the claim states, would report an issue),
yet the run succeeds with the warnings list still empty. -/
theorem c5_stage3_no_coherence_check_counterexample :
    (Agent3.runAgent c5mem c5resp).2 = none
    ∧ (Agent3.runAgent c5mem c5resp).1.coherenceWarnings = []
    ∧ (Agent2.check_coherence c5mem.prositRetour
        (Agent3.runAgent c5mem c5resp).1.cer).coherent = false :=
  ⟨by decide, by decide, by decide⟩

theorem agent2_error_preserves (mem : Memory) (r : StageResp) (m : Memory) (e : StageErr)
    (h : Agent2.runAgent mem r = (m, some e)) :
    m.prositAller = mem.prositAller ∧ m.filePA = mem.filePA
    ∧ m.cer = mem.cer ∧ m.fileCER = mem.fileCER := by
  unfold Agent2.runAgent at h
  cases hpa : mem.prositAller with
  | none =>
    rw [hpa] at h
    simp only [Prod.mk.injEq] at h
    rw [← h.1]
    exact ⟨hpa, rfl, rfl, rfl⟩
  | some pa =>
    rw [hpa] at h
    cases hp : parseJSON r.plan with
    | error e1 =>
      rw [hp] at h
      simp only [Prod.mk.injEq] at h
      rw [← h.1]
      exact ⟨hpa, rfl, rfl, rfl⟩
    | ok p =>
      rw [hp] at h
      cases hd : parseJSON r.draft with
      | error e2 =>
        rw [hd] at h
        simp only [Prod.mk.injEq] at h
        rw [← h.1]
        exact ⟨hpa, rfl, rfl, rfl⟩
      | ok pr0 =>
        rw [hd] at h
        dsimp only at h
        split at h
        · simp only [Prod.mk.injEq] at h
          rw [← h.1]
          split <;> refine ⟨?_, rfl, rfl, rfl⟩
          · exact hpa
          · rfl
        · simp at h

theorem agent1_error_eq (mem : Memory) (r : StageResp) (m : Memory) (e : StageErr)
    (h : Agent1.runAgent mem r = (m, some e)) : m = mem := by
  unfold Agent1.runAgent at h
  cases hp : parseJSON r.plan with
  | error e1 =>
    rw [hp] at h
    simp only [Prod.mk.injEq] at h
    exact h.1.symm
  | ok p =>
    rw [hp] at h
    cases hd : parseJSON r.draft with
    | error e2 =>
      rw [hd] at h
      simp only [Prod.mk.injEq] at h
      exact h.1.symm
    | ok pa0 =>
      rw [hd] at h
      dsimp only at h
      split at h
      · simp only [Prod.mk.injEq] at h
        exact h.1.symm
      · simp at h

theorem agent3_error_eq (mem : Memory) (r : StageResp) (m : Memory) (e : StageErr)
    (h : Agent3.runAgent mem r = (m, some e)) : m = mem := by
  unfold Agent3.runAgent at h
  cases hp : parseJSON r.plan with
  | error e1 =>
    rw [hp] at h
    simp only [Prod.mk.injEq] at h
    exact h.1.symm
  | ok p =>
    rw [hp] at h
    cases hd : parseJSON r.draft with
    | error e2 =>
      rw [hd] at h
      simp only [Prod.mk.injEq] at h
      exact h.1.symm
    | ok cer0 =>
      rw [hd] at h
      dsimp only at h
      split at h
      · simp only [Prod.mk.injEq] at h
        exact h.1.symm
      · simp at h

/-- C9: whichever stage is the first to throw, in every mode and
skip-configuration in which that stage runs, the orchestrator's `run`
surfaces that same error unmodified, invokes no subsequent stage (the run
result is independent of the later stages' responses and the later slots are
untouched), and shared memory is exactly as the failing stage left it — in
particular every write of the earlier, successful stages is preserved.
Stage 1 runs only in `full` mode and returns the incoming memory unchanged
on error; stage 2 runs unless the mode is `from_pr` or `skipPR` is set, and
on error preserves stage 1's document and file-path writes and the untouched
later slots; stage 3 runs last in every mode and returns its incoming memory
unchanged on error. -/
theorem c9_error_propagation (mem : Memory) (r : RunResps) (e : StageErr)
    (skipPR : Bool) (mode : Mode) :
    (∀ m, Agent1.runAgent mem r.a1 = (m, some e) →
      m = mem ∧ ∀ a2 a3 : StageResp,
        Orchestrator.run mem .full skipPR ⟨r.a1, a2, a3⟩ = (m, some e))
    ∧
    (∀ m1 m,
      (if mode = .full then Agent1.runAgent mem r.a1 else (mem, none)) = (m1, none) →
      mode ≠ .from_pr → skipPR = false →
      Agent2.runAgent m1 r.a2 = (m, some e) →
      (m.prositAller = m1.prositAller ∧ m.filePA = m1.filePA
        ∧ m.cer = m1.cer ∧ m.fileCER = m1.fileCER)
      ∧ ∀ a3 : StageResp,
        Orchestrator.run mem mode skipPR ⟨r.a1, r.a2, a3⟩ = (m, some e))
    ∧
    (∀ m1 m2 m,
      (if mode = .full then Agent1.runAgent mem r.a1 else (mem, none)) = (m1, none) →
      (if mode ≠ .from_pr ∧ ¬ skipPR then Agent2.runAgent m1 r.a2 else (m1, none)) =
        (m2, none) →
      Agent3.runAgent m2 r.a3 = (m, some e) →
      m = m2 ∧ Orchestrator.run mem mode skipPR r = (m, some e)) := by
  refine ⟨fun m h1 => ⟨agent1_error_eq mem r.a1 m e h1, fun a2 a3 => ?_⟩,
    fun m1 m h1 hmode hskip h2 => ?_,
    fun m1 m2 m h1 h2 h3 => ⟨agent3_error_eq m2 r.a3 m e h3, ?_⟩⟩
  · unfold Orchestrator.run
    rw [if_pos rfl]
    dsimp only
    rw [h1]
  · have hp := agent2_error_preserves m1 r.a2 m e h2
    refine ⟨⟨hp.1, hp.2.1, hp.2.2.1, hp.2.2.2⟩, fun a3 => ?_⟩
    unfold Orchestrator.run
    dsimp only
    rw [h1]
    dsimp only
    rw [if_pos ⟨hmode, by simp [hskip]⟩, h2]
  · unfold Orchestrator.run
    rw [h1]
    dsimp only
    rw [h2]
    dsimp only
    exact h3

/-- Witness for `c9_error_propagation`: three concrete runs, one per failing
stage — agent 1 failing on its planning response in a full run, agent 2
failing after agent 1 succeeded in a full run, and agent 3 failing in a
`from_pr` run where it is the only stage executed. -/
theorem c9_error_propagation_witness :
    Orchestrator.run c9mem .full false c9rA = (c9mem, some (.parse .noJsonFound))
    ∧ Orchestrator.run c9mem .full false c9r = (c9m1, some (.parse .noJsonFound))
    ∧ Orchestrator.run c9mem .from_pr false c9rC = (c9mem, some (.parse .noJsonFound)) :=
  ⟨((c9_error_propagation c9mem c9rA (.parse .noJsonFound) false .full).1
      c9mem (by decide)).2 c9rA.a2 c9rA.a3,
   ((c9_error_propagation c9mem c9r (.parse .noJsonFound) false .full).2.1
      c9m1 c9m1 (by decide) (by decide) rfl (by decide)).2 c9r.a3,
   ((c9_error_propagation c9mem c9rC (.parse .noJsonFound) false .from_pr).2.2
      c9mem c9mem c9mem (by decide) (by decide) (by decide)).2⟩

theorem collapseGo_all (l : List Char) : ∀ b : Bool,
    (collapseGo b l).all slugAlphabet = true := by
  induction l with
  | nil => intro b; rfl
  | cons c cs ih =>
    intro b
    show (if isSlugGood c then c :: collapseGo false cs
      else if b then collapseGo true cs else '_' :: collapseGo true cs).all slugAlphabet = true
    by_cases hg : isSlugGood c
    · rw [if_pos hg]
      have hc : slugAlphabet c = true := by
        unfold slugAlphabet
        simp [hg]
      simp [hc, ih false]
    · rw [if_neg hg]
      cases b with
      | true => simpa using ih true
      | false =>
        have hu : slugAlphabet '_' = true := by decide
        simp [hu, ih true]

theorem collapseGo_true_head (l : List Char) :
    (collapseGo true l).head? ≠ some '_' := by
  induction l with
  | nil => simp [collapseGo]
  | cons c cs ih =>
    show (if isSlugGood c then c :: collapseGo false cs
      else if True then collapseGo true cs else '_' :: collapseGo true cs).head? ≠ some '_'
    by_cases hg : isSlugGood c
    · rw [if_pos hg]
      intro he
      simp at he
      subst he
      exact absurd hg (by decide)
    · rw [if_neg hg, if_pos trivial]
      exact ih

theorem collapseGo_false_head_tail (l : List Char)
    (h : (collapseGo false l).head? = some '_') :
    (collapseGo false l).tail.head? ≠ some '_' := by
  cases l with
  | nil => simp [collapseGo] at h
  | cons c cs =>
    by_cases hg : isSlugGood c
    · exfalso
      have : collapseGo false (c :: cs) = c :: collapseGo false cs := by
        show (if isSlugGood c then c :: collapseGo false cs
          else if False then collapseGo true cs else '_' :: collapseGo true cs) = _
        rw [if_pos hg]
      rw [this] at h
      simp at h
      subst h
      exact absurd hg (by decide)
    · have : collapseGo false (c :: cs) = '_' :: collapseGo true cs := by
        show (if isSlugGood c then c :: collapseGo false cs
          else if False then collapseGo true cs else '_' :: collapseGo true cs) = _
        rw [if_neg hg, if_neg (by simp)]
      rw [this]
      exact collapseGo_true_head cs

theorem dropLead_sublist (l : List Char) : (dropLeadUnderscore l).Sublist l := by
  unfold dropLeadUnderscore
  split
  · exact List.tail_sublist l
  · exact List.Sublist.refl l

theorem dropTrail_sublist (l : List Char) : (dropTrailUnderscore l).Sublist l := by
  unfold dropTrailUnderscore
  split
  · exact List.dropLast_sublist l
  · exact List.Sublist.refl l

theorem stripEdge_sublist (l : List Char) : (stripEdgeUnderscores l).Sublist l :=
  (dropTrail_sublist _).trans (dropLead_sublist l)

theorem head?_dropLast {α : Type} (l : List α) :
    l.dropLast.head? = none ∨ l.dropLast.head? = l.head? := by
  cases l with
  | nil => exact Or.inl rfl
  | cons c cs =>
    cases cs with
    | nil => exact Or.inl rfl
    | cons d ds => exact Or.inr rfl

theorem slug_core (cs : List Char) :
    ((stripEdgeUnderscores (collapseGo false cs)).take 35).all slugAlphabet = true
    ∧ ((stripEdgeUnderscores (collapseGo false cs)).take 35).head? ≠ some '_'
    ∧ ((stripEdgeUnderscores (collapseGo false cs)).take 35).length ≤ 35 := by
  refine ⟨?_, ?_, ?_⟩
  · have hall := collapseGo_all cs false
    have hsub : ((stripEdgeUnderscores (collapseGo false cs)).take 35).Sublist
        (collapseGo false cs) :=
      (List.take_sublist _ _).trans (stripEdge_sublist _)
    rw [List.all_eq_true] at hall ⊢
    exact fun x hx => hall x (hsub.subset hx)
  · have h1 : (stripEdgeUnderscores (collapseGo false cs)).head? ≠ some '_' := by
      have hlead : (dropLeadUnderscore (collapseGo false cs)).head? ≠ some '_' := by
        unfold dropLeadUnderscore
        by_cases hh : (collapseGo false cs).head? = some '_'
        · rw [if_pos hh]
          exact collapseGo_false_head_tail cs hh
        · rw [if_neg hh]
          exact hh
      show (dropTrailUnderscore (dropLeadUnderscore (collapseGo false cs))).head? ≠ some '_'
      unfold dropTrailUnderscore
      split
      · rcases head?_dropLast (dropLeadUnderscore (collapseGo false cs)) with hn | he
        · rw [hn]
          simp
        · rw [he]
          exact hlead
      · exact hlead
    cases hst : stripEdgeUnderscores (collapseGo false cs) with
    | nil => simp
    | cons x xs =>
      rw [hst] at h1
      simpa using h1
  · exact List.length_take_le 35 (stripEdgeUnderscores (collapseGo false cs))

/-- C10: for every theme string passed to `createMemory`, the derived slug
contains only lowercase ASCII letters, digits and underscores (accented
letters decompose to their base letter before the combining marks are
stripped), never starts with an underscore, and is at most 35 characters
long. -/
theorem c10_slug_shape (theme : String) :
    (createMemorySlug theme).data.all slugAlphabet = true
    ∧ (createMemorySlug theme).data.head? ≠ some '_'
    ∧ (createMemorySlug theme).length ≤ 35 :=
  ⟨(slug_core _).1, (slug_core _).2.1, (slug_core _).2.2⟩

/-- Witness for `c10_slug_shape` at a concrete accented theme. -/
theorem c10_slug_shape_witness :
    (createMemorySlug "Équilibre, à l'épreuve !").data.all slugAlphabet = true
    ∧ (createMemorySlug "Équilibre, à l'épreuve !").data.head? ≠ some '_'
    ∧ (createMemorySlug "Équilibre, à l'épreuve !").length ≤ 35 :=
  c10_slug_shape "Équilibre, à l'épreuve !"

/-! ### Extraction idempotence (C6): scanner lemmas -/

theorem contentOk_facts {c : Char} (h : contentOk c = true) :
    ¬ c = dq ∧ ¬ c = bslash ∧ ¬ c = btick ∧ ¬ c = lcurly ∧ ¬ c = lsq ∧
      ¬ c = rcurly ∧ ¬ c = rsq ∧ ¬ c = ',' := by
  have hp : ¬ (c = dq ∨ c = bslash ∨ c = btick ∨ c = lcurly ∨ c = lsq ∨
      c = rcurly ∨ c = rsq ∨ c = ',') := of_decide_eq_true h
  push_neg at hp
  exact hp

theorem neutralCh_facts {c : Char} (h : neutralCh c = true) :
    ¬ c = bslash ∧ ¬ c = dq ∧ ¬ c = lcurly ∧ ¬ c = lsq ∧ ¬ c = rcurly ∧ ¬ c = rsq := by
  have hp : ¬ (c = bslash ∨ c = dq ∨ c = lcurly ∨ c = lsq ∨ c = rcurly ∨ c = rsq) :=
    of_decide_eq_true h
  push_neg at hp
  exact hp

theorem neutralCh_of {c : Char} (h1 : ¬ c = bslash) (h2 : ¬ c = dq) (h3 : ¬ c = lcurly)
    (h4 : ¬ c = lsq) (h5 : ¬ c = rcurly) (h6 : ¬ c = rsq) : neutralCh c = true := by
  apply decide_eq_true
  rintro (he | he | he | he | he | he)
  exacts [h1 he, h2 he, h3 he, h4 he, h5 he, h6 he]

theorem contentOk_neutral {c : Char} (h : contentOk c = true) : neutralCh c = true := by
  obtain ⟨f1, f2, _, f4, f5, f6, f7, _⟩ := contentOk_facts h
  exact neutralCh_of f2 f1 f4 f5 f6 f7

theorem all_of_all {α : Type} {p q : α → Bool} {l : List α} (h : l.all p = true)
    (himp : ∀ c, p c = true → q c = true) : l.all q = true := by
  rw [List.all_eq_true] at h ⊢
  exact fun x hx => himp x (h x hx)

theorem scanGo_step_inStr (c : Char) (h1 : ¬ c = bslash) (h2 : ¬ c = dq)
    (cs : List Char) (i : Nat) (d : Int) :
    scanGo (c :: cs) i d true false = scanGo cs (i + 1) d true false := by
  simp only [scanGo]
  rw [if_neg (by simp), if_neg h1, if_neg h2, if_pos trivial]

theorem scanGo_step_dq (cs : List Char) (i : Nat) (d : Int) (b : Bool) :
    scanGo (dq :: cs) i d b false = scanGo cs (i + 1) d (!b) false := by
  simp only [scanGo]
  rw [if_neg (by simp), if_neg (by decide), if_pos trivial]

theorem scanGo_step_neutral (c : Char) (h : neutralCh c = true)
    (cs : List Char) (i : Nat) (d : Int) :
    scanGo (c :: cs) i d false false = scanGo cs (i + 1) d false false := by
  obtain ⟨h1, h2, h3, h4, h5, h6⟩ := neutralCh_facts h
  simp only [scanGo]
  rw [if_neg (by simp), if_neg h1, if_neg h2, if_neg (by simp),
    if_neg (by rintro (hh | hh); exacts [h5 hh, h6 hh]),
    if_neg (by rintro (hh | hh); exacts [h3 hh, h4 hh])]

theorem scanGo_step_open (c : Char) (h : c = lcurly ∨ c = lsq)
    (cs : List Char) (i : Nat) (d : Int) :
    scanGo (c :: cs) i d false false = scanGo cs (i + 1) (d + 1) false false := by
  have h1 : ¬ c = bslash := by rcases h with h | h <;> subst h <;> decide
  have h2 : ¬ c = dq := by rcases h with h | h <;> subst h <;> decide
  have h3 : ¬ (c = rcurly ∨ c = rsq) := by
    rcases h with h | h <;> subst h <;> decide
  simp only [scanGo]
  rw [if_neg (by simp), if_neg h1, if_neg h2, if_neg (by simp), if_neg h3, if_pos h]

theorem scanGo_step_close_end (c : Char) (h : c = rcurly ∨ c = rsq)
    (cs : List Char) (i : Nat) (d : Int) (hd : d - 1 = 0) :
    scanGo (c :: cs) i d false false = some i := by
  have h1 : ¬ c = bslash := by rcases h with h | h <;> subst h <;> decide
  have h2 : ¬ c = dq := by rcases h with h | h <;> subst h <;> decide
  have h4 : ¬ (c = lcurly ∨ c = lsq) := by
    rcases h with h | h <;> subst h <;> decide
  simp only [scanGo]
  rw [if_neg (by simp), if_neg h1, if_neg h2, if_neg (by simp), if_pos h, if_neg h4,
    if_pos hd]

theorem scanGo_step_close_cont (c : Char) (h : c = rcurly ∨ c = rsq)
    (cs : List Char) (i : Nat) (d : Int) (hd : ¬ d - 1 = 0) :
    scanGo (c :: cs) i d false false = scanGo cs (i + 1) (d - 1) false false := by
  have h1 : ¬ c = bslash := by rcases h with h | h <;> subst h <;> decide
  have h2 : ¬ c = dq := by rcases h with h | h <;> subst h <;> decide
  have h4 : ¬ (c = lcurly ∨ c = lsq) := by
    rcases h with h | h <;> subst h <;> decide
  simp only [scanGo]
  rw [if_neg (by simp), if_neg h1, if_neg h2, if_neg (by simp), if_pos h, if_neg h4,
    if_neg hd]

theorem scanGo_pass_inStr (cs : List Char) (h : cs.all contentOk = true) (t : List Char) :
    ∀ (i : Nat) (d : Int),
      scanGo (cs ++ t) i d true false = scanGo t (i + cs.length) d true false := by
  induction cs with
  | nil => intro i d; simp
  | cons c cs' ih =>
    intro i d
    rw [List.all_cons, Bool.and_eq_true] at h
    obtain ⟨f1, f2, _⟩ := contentOk_facts h.1
    rw [List.cons_append, scanGo_step_inStr c f2 f1, ih h.2]
    rw [show i + 1 + cs'.length = i + (c :: cs').length from by
      simp only [List.length_cons]; omega]

theorem scanGo_pass_neutral (cs : List Char) (h : cs.all neutralCh = true) (t : List Char) :
    ∀ (i : Nat) (d : Int),
      scanGo (cs ++ t) i d false false = scanGo t (i + cs.length) d false false := by
  induction cs with
  | nil => intro i d; simp
  | cons c cs' ih =>
    intro i d
    rw [List.all_cons, Bool.and_eq_true] at h
    rw [List.cons_append, scanGo_step_neutral c h.1, ih h.2]
    rw [show i + 1 + cs'.length = i + (c :: cs').length from by
      simp only [List.length_cons]; omega]

theorem strLit_length (s : String) : (strLit s).length = s.data.length + 2 := by
  simp [strLit]

theorem scanGo_strLit (s : String) (h : s.data.all contentOk = true)
    (t : List Char) (i : Nat) (d : Int) :
    scanGo (strLit s ++ t) i d false false = scanGo t (i + (strLit s).length) d false false := by
  show scanGo ((dq :: (s.data ++ [dq])) ++ t) i d false false = _
  rw [List.cons_append, scanGo_step_dq]
  simp only [Bool.not_false]
  rw [List.append_assoc, scanGo_pass_inStr s.data h ([dq] ++ t)]
  rw [List.singleton_append, scanGo_step_dq]
  simp only [Bool.not_true]
  rw [show i + 1 + s.data.length + 1 = i + (strLit s).length from by
    rw [strLit_length]; omega]

theorem natCharsAux_all_digit : ∀ (fuel m : Nat), m < fuel →
    (natCharsAux fuel m).all isDigitCh = true ∧ natCharsAux fuel m ≠ [] := by
  intro fuel
  induction fuel with
  | zero => intro m hm; omega
  | succ f ih =>
    intro m hm
    rw [show natCharsAux (f + 1) m = (if m < 10 then [Char.ofNat (48 + m)]
      else natCharsAux f (m / 10) ++ [Char.ofNat (48 + m % 10)]) from rfl]
    by_cases h10 : m < 10
    · rw [if_pos h10]
      constructor
      · interval_cases m <;> decide
      · simp
    · rw [if_neg h10]
      have hdiv : m / 10 < f := by
        have h1 : m / 10 < m := Nat.div_lt_self (by omega) (by omega)
        omega
      obtain ⟨ha, _⟩ := ih (m / 10) hdiv
      constructor
      · rw [List.all_append, Bool.and_eq_true]
        refine ⟨ha, ?_⟩
        have hr : m % 10 < 10 := Nat.mod_lt _ (by omega)
        set r := m % 10 with hrdef
        interval_cases r <;> decide
      · simp

theorem digit_neutral {c : Char} (h : isDigitCh c = true) : neutralCh c = true := by
  apply neutralCh_of <;> intro he <;> rw [he] at h <;> exact absurd h (by decide)

theorem intChars_neutral (n : Int) : (intChars n).all neutralCh = true := by
  unfold intChars
  split
  · rw [List.all_cons, Bool.and_eq_true]
    refine ⟨by decide, ?_⟩
    exact all_of_all (natCharsAux_all_digit _ _ (by omega)).1 (fun c => digit_neutral)
  · exact all_of_all (natCharsAux_all_digit _ _ (by omega)).1 (fun c => digit_neutral)

mutual

theorem scanV : ∀ (j : Json), goodV j = true → ∀ (t : List Char) (i : Nat) (d : Int),
    1 ≤ d → scanGo (sVal j ++ t) i d false false = scanGo t (i + (sVal j).length) d false false
  | .str s, h, t, i, d, _ => scanGo_strLit s h t i d
  | .num n, _, t, i, d, _ => scanGo_pass_neutral (intChars n) (intChars_neutral n) t i d
  | .bool true, _, t, i, d, _ =>
    scanGo_pass_neutral ("true".data) (by decide) t i d
  | .bool false, _, t, i, d, _ =>
    scanGo_pass_neutral ("false".data) (by decide) t i d
  | .null, _, t, i, d, _ =>
    scanGo_pass_neutral ("null".data) (by decide) t i d
  | .arr .nil, _, t, i, d, hd => by
    show scanGo ((lsq :: [rsq]) ++ t) i d false false = _
    rw [List.cons_append, scanGo_step_open lsq (Or.inr rfl),
      List.singleton_append,
      scanGo_step_close_cont rsq (Or.inr rfl) t (i + 1) (d + 1) (by omega)]
    rw [show (d : Int) + 1 - 1 = d from by omega]
    rw [show i + 1 + 1 = i + (sVal (Json.arr .nil)).length from by
      show _ = i + ([lsq, rsq]).length; simp]
  | .arr (.cons hd' tl), h, t, i, d, hd => by
    have hv : goodV hd' = true ∧ goodL tl = true := by
      have := h
      rw [show goodV (Json.arr (.cons hd' tl)) = (goodV hd' && goodL tl) from rfl,
        Bool.and_eq_true] at this
      exact this
    show scanGo ((lsq :: (sVal hd' ++ (sArrRest tl ++ [rsq]))) ++ t) i d false false = _
    rw [List.cons_append, scanGo_step_open lsq (Or.inr rfl)]
    rw [List.append_assoc, scanV hd' hv.1 _ _ _ (by omega)]
    rw [List.append_assoc, scanArr tl hv.2 _ _ _ (by omega)]
    rw [List.singleton_append,
      scanGo_step_close_cont rsq (Or.inr rfl) t _ (d + 1) (by omega)]
    rw [show (d : Int) + 1 - 1 = d from by omega]
    rw [show i + 1 + (sVal hd').length + (sArrRest tl).length + 1 =
        i + (sVal (Json.arr (.cons hd' tl))).length from by
      show _ = i + (lsq :: (sVal hd' ++ (sArrRest tl ++ [rsq]))).length
      simp only [List.length_cons, List.length_append, List.length_nil]
      omega]
  | .obj .nil, _, t, i, d, hd => by
    show scanGo ((lcurly :: [rcurly]) ++ t) i d false false = _
    rw [List.cons_append, scanGo_step_open lcurly (Or.inl rfl),
      List.singleton_append,
      scanGo_step_close_cont rcurly (Or.inl rfl) t (i + 1) (d + 1) (by omega)]
    rw [show (d : Int) + 1 - 1 = d from by omega]
    rw [show i + 1 + 1 = i + (sVal (Json.obj .nil)).length from by
      show _ = i + ([lcurly, rcurly]).length; simp]
  | .obj (.cons k v tl), h, t, i, d, hd => by
    have hv : k.data.all contentOk = true ∧ goodV v = true ∧ goodM tl = true := by
      have := h
      rw [show goodV (Json.obj (.cons k v tl)) =
          (k.data.all contentOk && goodV v && goodM tl) from rfl,
        Bool.and_eq_true, Bool.and_eq_true] at this
      exact ⟨this.1.1, this.1.2, this.2⟩
    show scanGo ((lcurly :: (strLit k ++ ':' :: (sVal v ++ (sMemRest tl ++ [rcurly])))) ++ t)
        i d false false = _
    rw [List.cons_append, scanGo_step_open lcurly (Or.inl rfl)]
    rw [List.append_assoc, scanGo_strLit k hv.1]
    rw [List.cons_append, scanGo_step_neutral ':' (by decide)]
    rw [List.append_assoc, scanV v hv.2.1 _ _ _ (by omega)]
    rw [List.append_assoc, scanMem tl hv.2.2 _ _ _ (by omega)]
    rw [List.singleton_append,
      scanGo_step_close_cont rcurly (Or.inl rfl) t _ (d + 1) (by omega)]
    rw [show (d : Int) + 1 - 1 = d from by omega]
    rw [show i + 1 + (strLit k).length + 1 + (sVal v).length + (sMemRest tl).length + 1 =
        i + (sVal (Json.obj (.cons k v tl))).length from by
      show _ = i + (lcurly :: (strLit k ++ ':' :: (sVal v ++ (sMemRest tl ++ [rcurly])))).length
      simp only [List.length_cons, List.length_append, List.length_nil]
      omega]

theorem scanArr : ∀ (l : JsonList), goodL l = true → ∀ (t : List Char) (i : Nat) (d : Int),
    1 ≤ d →
    scanGo (sArrRest l ++ t) i d false false = scanGo t (i + (sArrRest l).length) d false false
  | .nil, _, t, i, d, _ => by
    show scanGo ([] ++ t) i d false false = scanGo t (i + ([] : List Char).length) d false false
    simp
  | .cons hd' tl, h, t, i, d, hdge => by
    have hv : goodV hd' = true ∧ goodL tl = true := by
      have := h
      rw [show goodL (.cons hd' tl) = (goodV hd' && goodL tl) from rfl,
        Bool.and_eq_true] at this
      exact this
    show scanGo ((',' :: (sVal hd' ++ sArrRest tl)) ++ t) i d false false = _
    rw [List.cons_append, scanGo_step_neutral ',' (by decide)]
    rw [List.append_assoc, scanV hd' hv.1 _ _ _ hdge]
    rw [scanArr tl hv.2 _ _ _ hdge]
    rw [show i + 1 + (sVal hd').length + (sArrRest tl).length =
        i + (sArrRest (.cons hd' tl)).length from by
      show _ = i + (',' :: (sVal hd' ++ sArrRest tl)).length
      simp only [List.length_cons, List.length_append, List.length_nil]
      omega]

theorem scanMem : ∀ (m : JsonMembers), goodM m = true → ∀ (t : List Char) (i : Nat) (d : Int),
    1 ≤ d →
    scanGo (sMemRest m ++ t) i d false false = scanGo t (i + (sMemRest m).length) d false false
  | .nil, _, t, i, d, _ => by
    show scanGo ([] ++ t) i d false false = scanGo t (i + ([] : List Char).length) d false false
    simp
  | .cons k v tl, h, t, i, d, hdge => by
    have hv : k.data.all contentOk = true ∧ goodV v = true ∧ goodM tl = true := by
      have := h
      rw [show goodM (.cons k v tl) =
          (k.data.all contentOk && goodV v && goodM tl) from rfl,
        Bool.and_eq_true, Bool.and_eq_true] at this
      exact ⟨this.1.1, this.1.2, this.2⟩
    show scanGo ((',' :: (strLit k ++ ':' :: (sVal v ++ sMemRest tl))) ++ t) i d false false = _
    rw [List.cons_append, scanGo_step_neutral ',' (by decide)]
    rw [List.append_assoc, scanGo_strLit k hv.1]
    rw [List.cons_append, scanGo_step_neutral ':' (by decide)]
    rw [List.append_assoc, scanV v hv.2.1 _ _ _ hdge]
    rw [scanMem tl hv.2.2 _ _ _ hdge]
    rw [show i + 1 + (strLit k).length + 1 + (sVal v).length + (sMemRest tl).length =
        i + (sMemRest (.cons k v tl)).length from by
      show _ = i + (',' :: (strLit k ++ ':' :: (sVal v ++ sMemRest tl))).length
      simp only [List.length_cons, List.length_append, List.length_nil]
      omega]

end

theorem noiseOk_facts {c : Char} (h : noiseOk c = true) :
    ¬ c = btick ∧ ¬ c = lcurly ∧ ¬ c = lsq := by
  have hp : ¬ (c = btick ∨ c = lcurly ∨ c = lsq) := of_decide_eq_true h
  push_neg at hp
  exact hp

theorem digit_props {c : Char} (h : isDigitCh c = true) :
    ¬ c = btick ∧ isJsWs c = false ∧ ¬ c = ',' := by
  have hp : 48 ≤ c.toNat ∧ c.toNat ≤ 57 := of_decide_eq_true h
  refine ⟨fun he => ?_, ?_, fun he => ?_⟩
  · rw [he] at hp; exact absurd hp (by decide)
  · unfold isJsWs
    apply decide_eq_false
    rintro (he | he | he | he | he | he) <;> rw [he] at hp <;> exact absurd hp (by decide)
  · rw [he] at hp; exact absurd hp (by decide)

theorem intChars_chars (n : Int) : ∀ c ∈ intChars n, isDigitCh c = true ∨ c = '-' := by
  intro c hc
  unfold intChars at hc
  split at hc
  · rcases List.mem_cons.mp hc with rfl | hm
    · exact Or.inr rfl
    · exact Or.inl (List.all_eq_true.mp (natCharsAux_all_digit _ _ (by omega)).1 c hm)
  · exact Or.inl (List.all_eq_true.mp (natCharsAux_all_digit _ _ (by omega)).1 c hc)

theorem sVal_head (j : Json) : ∃ d r, sVal j = d :: r ∧ isJsWs d = false ∧
    ¬ d = rcurly ∧ ¬ d = rsq := by
  cases j with
  | str s => exact ⟨dq, _, rfl, by decide, by decide, by decide⟩
  | num n =>
    have hne : intChars n ≠ [] := by
      unfold intChars
      split
      · simp
      · exact (natCharsAux_all_digit _ _ (by omega)).2
    cases hic : intChars n with
    | nil => exact absurd hic hne
    | cons d r =>
      have hd : isDigitCh d = true ∨ d = '-' :=
        intChars_chars n d (by rw [hic]; simp)
      refine ⟨d, r, hic, ?_⟩
      cases hd with
      | inl h =>
        obtain ⟨_, hw, _⟩ := digit_props h
        obtain ⟨_, _, _, _, f5, f6⟩ := neutralCh_facts (digit_neutral h)
        exact ⟨hw, f5, f6⟩
      | inr h => rw [h]; exact ⟨by decide, by decide, by decide⟩
  | bool b =>
    cases b
    · exact ⟨'f', _, rfl, by decide, by decide, by decide⟩
    · exact ⟨'t', _, rfl, by decide, by decide, by decide⟩
  | null => exact ⟨'n', _, rfl, by decide, by decide, by decide⟩
  | arr l =>
    cases l
    · exact ⟨lsq, _, rfl, by decide, by decide, by decide⟩
    · exact ⟨lsq, _, rfl, by decide, by decide, by decide⟩
  | obj m =>
    cases m
    · exact ⟨lcurly, _, rfl, by decide, by decide, by decide⟩
    · exact ⟨lcurly, _, rfl, by decide, by decide, by decide⟩

theorem sVal_head_comp (j : Json) (hc : isComposite j = true) :
    ∃ d r, sVal j = d :: r ∧ (d = lcurly ∨ d = lsq) := by
  cases j with
  | str s => exact Bool.noConfusion (show false = true from hc)
  | num n => exact Bool.noConfusion (show false = true from hc)
  | bool b => exact Bool.noConfusion (show false = true from hc)
  | null => exact Bool.noConfusion (show false = true from hc)
  | arr l =>
    cases l
    · exact ⟨lsq, _, rfl, Or.inr rfl⟩
    · exact ⟨lsq, _, rfl, Or.inr rfl⟩
  | obj m =>
    cases m
    · exact ⟨lcurly, _, rfl, Or.inl rfl⟩
    · exact ⟨lcurly, _, rfl, Or.inl rfl⟩

theorem sVal_last (j : Json) (hc : isComposite j = true) :
    ∃ m e, sVal j = m ++ [e] ∧ isJsWs e = false := by
  cases j with
  | str s => exact Bool.noConfusion (show false = true from hc)
  | num n => exact Bool.noConfusion (show false = true from hc)
  | bool b => exact Bool.noConfusion (show false = true from hc)
  | null => exact Bool.noConfusion (show false = true from hc)
  | arr l =>
    cases l with
    | nil => exact ⟨[lsq], rsq, rfl, by decide⟩
    | cons hd tl =>
      refine ⟨lsq :: (sVal hd ++ sArrRest tl), rsq, ?_, by decide⟩
      show lsq :: (sVal hd ++ (sArrRest tl ++ [rsq])) = _
      simp
  | obj m =>
    cases m with
    | nil => exact ⟨[lcurly], rcurly, rfl, by decide⟩
    | cons k v tl =>
      refine ⟨lcurly :: (strLit k ++ ':' :: (sVal v ++ sMemRest tl)), rcurly, ?_, by decide⟩
      show lcurly :: (strLit k ++ ':' :: (sVal v ++ (sMemRest tl ++ [rcurly]))) = _
      simp

theorem strLit_tick (s : String) (h : s.data.all contentOk = true) :
    ∀ c ∈ strLit s, ¬ c = btick := by
  intro c hc
  rcases List.mem_cons.mp hc with rfl | hc2
  · decide
  · rcases List.mem_append.mp hc2 with h3 | h3
    · exact (contentOk_facts (List.all_eq_true.mp h c h3)).2.2.1
    · rw [List.mem_singleton.mp h3]; decide

theorem strLit_nocomma (s : String) (h : s.data.all contentOk = true) :
    ∀ c ∈ strLit s, ¬ c = ',' := by
  intro c hc
  rcases List.mem_cons.mp hc with rfl | hc2
  · decide
  · rcases List.mem_append.mp hc2 with h3 | h3
    · exact (contentOk_facts (List.all_eq_true.mp h c h3)).2.2.2.2.2.2.2
    · rw [List.mem_singleton.mp h3]; decide

theorem intChars_tick (n : Int) : ∀ c ∈ intChars n, ¬ c = btick := by
  intro c hc
  cases intChars_chars n c hc with
  | inl h => exact (digit_props h).1
  | inr h => rw [h]; decide

theorem intChars_nocomma (n : Int) : ∀ c ∈ intChars n, ¬ c = ',' := by
  intro c hc
  cases intChars_chars n c hc with
  | inl h => exact (digit_props h).2.2
  | inr h => rw [h]; decide

mutual

theorem tickV : ∀ (j : Json), goodV j = true → ∀ c ∈ sVal j, ¬ c = btick
  | .str s, h, c, hc => strLit_tick s h c hc
  | .num n, _, c, hc => intChars_tick n c hc
  | .bool b, _, c, hc => by
    cases b
    · have hc2 : c ∈ ['f', 'a', 'l', 's', 'e'] := hc
      simp at hc2
      rcases hc2 with rfl | rfl | rfl | rfl | rfl <;> decide
    · have hc2 : c ∈ ['t', 'r', 'u', 'e'] := hc
      simp at hc2
      rcases hc2 with rfl | rfl | rfl | rfl <;> decide
  | .null, _, c, hc => by
    have hc2 : c ∈ ['n', 'u', 'l', 'l'] := hc
    simp at hc2
    rcases hc2 with rfl | rfl | rfl <;> decide
  | .arr .nil, _, c, hc => by
    have hc2 : c ∈ [lsq, rsq] := hc
    simp at hc2
    rcases hc2 with rfl | rfl <;> decide
  | .arr (.cons hd tl), h, c, hc => by
    have hv : goodV hd = true ∧ goodL tl = true := by
      have := h
      rw [show goodV (Json.arr (.cons hd tl)) = (goodV hd && goodL tl) from rfl,
        Bool.and_eq_true] at this
      exact this
    have hc2 : c ∈ lsq :: (sVal hd ++ (sArrRest tl ++ [rsq])) := hc
    rcases List.mem_cons.mp hc2 with rfl | hc3
    · decide
    · rcases List.mem_append.mp hc3 with h4 | h4
      · exact tickV hd hv.1 c h4
      · rcases List.mem_append.mp h4 with h5 | h5
        · exact tickL tl hv.2 c h5
        · rw [List.mem_singleton.mp h5]; decide
  | .obj .nil, _, c, hc => by
    have hc2 : c ∈ [lcurly, rcurly] := hc
    simp at hc2
    rcases hc2 with rfl | rfl <;> decide
  | .obj (.cons k v tl), h, c, hc => by
    have hv : k.data.all contentOk = true ∧ goodV v = true ∧ goodM tl = true := by
      have := h
      rw [show goodV (Json.obj (.cons k v tl)) =
          (k.data.all contentOk && goodV v && goodM tl) from rfl,
        Bool.and_eq_true, Bool.and_eq_true] at this
      exact ⟨this.1.1, this.1.2, this.2⟩
    have hc2 : c ∈ lcurly :: (strLit k ++ ':' :: (sVal v ++ (sMemRest tl ++ [rcurly]))) := hc
    rcases List.mem_cons.mp hc2 with rfl | hc3
    · decide
    · rcases List.mem_append.mp hc3 with h4 | h4
      · exact strLit_tick k hv.1 c h4
      · rcases List.mem_cons.mp h4 with rfl | h5
        · decide
        · rcases List.mem_append.mp h5 with h6 | h6
          · exact tickV v hv.2.1 c h6
          · rcases List.mem_append.mp h6 with h7 | h7
            · exact tickM tl hv.2.2 c h7
            · rw [List.mem_singleton.mp h7]; decide

theorem tickL : ∀ (l : JsonList), goodL l = true → ∀ c ∈ sArrRest l, ¬ c = btick
  | .nil, _, c, hc => by exact absurd hc (by simp [sArrRest])
  | .cons hd tl, h, c, hc => by
    have hv : goodV hd = true ∧ goodL tl = true := by
      have := h
      rw [show goodL (.cons hd tl) = (goodV hd && goodL tl) from rfl,
        Bool.and_eq_true] at this
      exact this
    have hc2 : c ∈ ',' :: (sVal hd ++ sArrRest tl) := hc
    rcases List.mem_cons.mp hc2 with rfl | hc3
    · decide
    · rcases List.mem_append.mp hc3 with h4 | h4
      · exact tickV hd hv.1 c h4
      · exact tickL tl hv.2 c h4

theorem tickM : ∀ (m : JsonMembers), goodM m = true → ∀ c ∈ sMemRest m, ¬ c = btick
  | .nil, _, c, hc => by exact absurd hc (by simp [sMemRest])
  | .cons k v tl, h, c, hc => by
    have hv : k.data.all contentOk = true ∧ goodV v = true ∧ goodM tl = true := by
      have := h
      rw [show goodM (.cons k v tl) =
          (k.data.all contentOk && goodV v && goodM tl) from rfl,
        Bool.and_eq_true, Bool.and_eq_true] at this
      exact ⟨this.1.1, this.1.2, this.2⟩
    have hc2 : c ∈ ',' :: (strLit k ++ ':' :: (sVal v ++ sMemRest tl)) := hc
    rcases List.mem_cons.mp hc2 with rfl | hc3
    · decide
    · rcases List.mem_append.mp hc3 with h4 | h4
      · exact strLit_tick k hv.1 c h4
      · rcases List.mem_cons.mp h4 with rfl | h5
        · decide
        · rcases List.mem_append.mp h5 with h6 | h6
          · exact tickV v hv.2.1 c h6
          · exact tickM tl hv.2.2 c h6

end

theorem stc_cons_pass (c : Char) (h : ¬ c = ',') (cs : List Char) :
    stc 0 (c :: cs) = c :: stc 0 cs := by
  simp only [stc]
  rw [if_neg (by simp), if_neg h]

theorem stc_cons_comma (d : Char) (hw : isJsWs d = false) (hd : ¬ (d = rcurly ∨ d = rsq))
    (cs : List Char) : stc 0 (',' :: d :: cs) = ',' :: stc 0 (d :: cs) := by
  have h0 : wsCount (d :: cs) = 0 := by simp [wsCount, hw]
  simp only [stc, h0, List.drop_zero]
  rw [if_neg (by simp), if_pos trivial, if_neg hd]

theorem stc_pass_all (a : List Char) (h : ∀ c ∈ a, ¬ c = ',') (t : List Char) :
    stc 0 (a ++ t) = a ++ stc 0 t := by
  induction a with
  | nil => rfl
  | cons c cs ih =>
    rw [List.cons_append, stc_cons_pass c (h c (by simp)) (cs ++ t),
      ih (fun x hx => h x (by simp [hx])), List.cons_append]

mutual

theorem stcV : ∀ (j : Json), goodV j = true → ∀ (t : List Char),
    stc 0 (sVal j ++ t) = sVal j ++ stc 0 t
  | .str s, h, t => stc_pass_all (strLit s) (strLit_nocomma s h) t
  | .num n, _, t => stc_pass_all (intChars n) (intChars_nocomma n) t
  | .bool true, _, t => stc_pass_all ("true".data) (by decide) t
  | .bool false, _, t => stc_pass_all ("false".data) (by decide) t
  | .null, _, t => stc_pass_all ("null".data) (by decide) t
  | .arr .nil, _, t => stc_pass_all [lsq, rsq] (by decide) t
  | .arr (.cons hd tl), h, t => by
    have hv : goodV hd = true ∧ goodL tl = true := by
      have := h
      rw [show goodV (Json.arr (.cons hd tl)) = (goodV hd && goodL tl) from rfl,
        Bool.and_eq_true] at this
      exact this
    show stc 0 ((lsq :: (sVal hd ++ (sArrRest tl ++ [rsq]))) ++ t) =
      (lsq :: (sVal hd ++ (sArrRest tl ++ [rsq]))) ++ stc 0 t
    rw [List.cons_append, stc_cons_pass lsq (by decide)]
    rw [List.append_assoc, stcV hd hv.1]
    rw [List.append_assoc, stcArr tl hv.2]
    rw [List.singleton_append, stc_cons_pass rsq (by decide)]
    simp
  | .obj .nil, _, t => stc_pass_all [lcurly, rcurly] (by decide) t
  | .obj (.cons k v tl), h, t => by
    have hv : k.data.all contentOk = true ∧ goodV v = true ∧ goodM tl = true := by
      have := h
      rw [show goodV (Json.obj (.cons k v tl)) =
          (k.data.all contentOk && goodV v && goodM tl) from rfl,
        Bool.and_eq_true, Bool.and_eq_true] at this
      exact ⟨this.1.1, this.1.2, this.2⟩
    show stc 0 ((lcurly :: (strLit k ++ ':' :: (sVal v ++ (sMemRest tl ++ [rcurly])))) ++ t) =
      (lcurly :: (strLit k ++ ':' :: (sVal v ++ (sMemRest tl ++ [rcurly])))) ++ stc 0 t
    rw [List.cons_append, stc_cons_pass lcurly (by decide)]
    rw [List.append_assoc, stc_pass_all (strLit k) (strLit_nocomma k hv.1)]
    rw [List.cons_append, stc_cons_pass ':' (by decide)]
    rw [List.append_assoc, stcV v hv.2.1]
    rw [List.append_assoc, stcMem tl hv.2.2]
    rw [List.singleton_append, stc_cons_pass rcurly (by decide)]
    simp

theorem stcArr : ∀ (l : JsonList), goodL l = true → ∀ (t : List Char),
    stc 0 (sArrRest l ++ t) = sArrRest l ++ stc 0 t
  | .nil, _, t => rfl
  | .cons hd tl, h, t => by
    have hv : goodV hd = true ∧ goodL tl = true := by
      have := h
      rw [show goodL (.cons hd tl) = (goodV hd && goodL tl) from rfl,
        Bool.and_eq_true] at this
      exact this
    obtain ⟨d, r, hdr, hw, h1, h2⟩ := sVal_head hd
    show stc 0 ((',' :: (sVal hd ++ sArrRest tl)) ++ t) =
      (',' :: (sVal hd ++ sArrRest tl)) ++ stc 0 t
    rw [List.cons_append, List.append_assoc, hdr, List.cons_append]
    rw [stc_cons_comma d hw (by rintro (he | he); exacts [h1 he, h2 he])]
    rw [← List.cons_append, ← hdr, stcV hd hv.1, stcArr tl hv.2]
    simp

theorem stcMem : ∀ (m : JsonMembers), goodM m = true → ∀ (t : List Char),
    stc 0 (sMemRest m ++ t) = sMemRest m ++ stc 0 t
  | .nil, _, t => rfl
  | .cons k v tl, h, t => by
    have hv : k.data.all contentOk = true ∧ goodV v = true ∧ goodM tl = true := by
      have := h
      rw [show goodM (.cons k v tl) =
          (k.data.all contentOk && goodV v && goodM tl) from rfl,
        Bool.and_eq_true, Bool.and_eq_true] at this
      exact ⟨this.1.1, this.1.2, this.2⟩
    show stc 0 ((',' :: (strLit k ++ ':' :: (sVal v ++ sMemRest tl))) ++ t) =
      (',' :: (strLit k ++ ':' :: (sVal v ++ sMemRest tl))) ++ stc 0 t
    rw [List.cons_append]
    rw [show (strLit k ++ ':' :: (sVal v ++ sMemRest tl)) ++ t =
        dq :: ((k.data ++ [dq]) ++ ((':' :: (sVal v ++ sMemRest tl)) ++ t)) from by
      simp [strLit]]
    rw [stc_cons_comma dq (by decide) (by decide)]
    rw [show dq :: ((k.data ++ [dq]) ++ ((':' :: (sVal v ++ sMemRest tl)) ++ t)) =
        strLit k ++ ((':' :: (sVal v ++ sMemRest tl)) ++ t) from by simp [strLit]]
    rw [stc_pass_all (strLit k) (strLit_nocomma k hv.1)]
    rw [List.cons_append, stc_cons_pass ':' (by decide)]
    rw [List.append_assoc, stcV v hv.2.1, stcMem tl hv.2.2]
    simp

end

theorem topScan (j : Json) (hg : goodV j = true) (hc : isComposite j = true) (t : List Char) :
    findEnd (sVal j ++ t) = some ((sVal j).length - 1) := by
  cases j with
  | str s => exact Bool.noConfusion (show false = true from hc)
  | num n => exact Bool.noConfusion (show false = true from hc)
  | bool b => exact Bool.noConfusion (show false = true from hc)
  | null => exact Bool.noConfusion (show false = true from hc)
  | arr l =>
    cases l with
    | nil =>
      show scanGo ((lsq :: [rsq]) ++ t) 0 0 false false = some (([lsq, rsq] : List Char).length - 1)
      rw [List.cons_append, scanGo_step_open lsq (Or.inr rfl), List.singleton_append,
        scanGo_step_close_end rsq (Or.inr rfl) t (0 + 1) (0 + 1) (by omega)]
      rfl
    | cons hd tl =>
      have hv : goodV hd = true ∧ goodL tl = true := by
        have := hg
        rw [show goodV (Json.arr (.cons hd tl)) = (goodV hd && goodL tl) from rfl,
          Bool.and_eq_true] at this
        exact this
      show scanGo ((lsq :: (sVal hd ++ (sArrRest tl ++ [rsq]))) ++ t) 0 0 false false = _
      rw [List.cons_append, scanGo_step_open lsq (Or.inr rfl)]
      rw [List.append_assoc, scanV hd hv.1 _ _ _ (by omega)]
      rw [List.append_assoc, scanArr tl hv.2 _ _ _ (by omega)]
      rw [List.singleton_append, scanGo_step_close_end rsq (Or.inr rfl) t _ _ (by omega)]
      congr 1
      show 0 + 1 + (sVal hd).length + (sArrRest tl).length =
        (lsq :: (sVal hd ++ (sArrRest tl ++ [rsq]))).length - 1
      simp only [List.length_cons, List.length_append, List.length_nil]
      omega
  | obj m =>
    cases m with
    | nil =>
      show scanGo ((lcurly :: [rcurly]) ++ t) 0 0 false false =
        some (([lcurly, rcurly] : List Char).length - 1)
      rw [List.cons_append, scanGo_step_open lcurly (Or.inl rfl), List.singleton_append,
        scanGo_step_close_end rcurly (Or.inl rfl) t (0 + 1) (0 + 1) (by omega)]
      rfl
    | cons k v tl =>
      have hv : k.data.all contentOk = true ∧ goodV v = true ∧ goodM tl = true := by
        have := hg
        rw [show goodV (Json.obj (.cons k v tl)) =
            (k.data.all contentOk && goodV v && goodM tl) from rfl,
          Bool.and_eq_true, Bool.and_eq_true] at this
        exact ⟨this.1.1, this.1.2, this.2⟩
      show scanGo ((lcurly :: (strLit k ++ ':' :: (sVal v ++ (sMemRest tl ++ [rcurly])))) ++ t)
          0 0 false false = _
      rw [List.cons_append, scanGo_step_open lcurly (Or.inl rfl)]
      rw [List.append_assoc, scanGo_strLit k hv.1]
      rw [List.cons_append, scanGo_step_neutral ':' (by decide)]
      rw [List.append_assoc, scanV v hv.2.1 _ _ _ (by omega)]
      rw [List.append_assoc, scanMem tl hv.2.2 _ _ _ (by omega)]
      rw [List.singleton_append, scanGo_step_close_end rcurly (Or.inl rfl) t _ _ (by omega)]
      congr 1
      show 0 + 1 + (strLit k).length + 1 + (sVal v).length + (sMemRest tl).length =
        (lcurly :: (strLit k ++ ':' :: (sVal v ++ (sMemRest tl ++ [rcurly])))).length - 1
      simp only [List.length_cons, List.length_append, List.length_nil]
      omega

theorem c6_core (j v : Json) (t : List Char) (hg : goodV j = true) (hc : isComposite j = true)
    (hv : jsonParse (sVal j) = some v) : afterStart (sVal j ++ t) = .ok v := by
  obtain ⟨d, r, hdr, _⟩ := sVal_head j
  have hlen : (sVal j).length - 1 + 1 = (sVal j).length := by
    rw [hdr, List.length_cons]
    omega
  unfold afterStart
  rw [topScan j hg hc t]
  show parseStage (stc 0 ((sVal j ++ t).take ((sVal j).length - 1 + 1))) = Except.ok v
  rw [hlen, List.take_left]
  have hstc : stc 0 (sVal j) = sVal j := by
    have h2 := stcV j hg []
    rw [show stc 0 ([] : List Char) = [] from rfl, List.append_nil] at h2
    exact h2
  rw [hstc]
  unfold parseStage
  rw [hv]

theorem fenceJsonHead_false_head {c : Char} (h : ¬ c = btick) (cs : List Char) :
    fenceJsonHead (c :: cs) = false := by
  unfold fenceJsonHead
  have hne : ¬ ((c :: cs).take 3 = [btick, btick, btick]) := by
    intro he
    rw [show (c :: cs).take 3 = c :: cs.take 2 from rfl] at he
    injection he with h1 _
    exact h h1
  rw [decide_eq_false hne, Bool.false_and]

theorem fencePlainHead_false_head {c : Char} (h : ¬ c = btick) (cs : List Char) :
    fencePlainHead (c :: cs) = false := by
  unfold fencePlainHead
  have hne : ¬ ((c :: cs).take 3 = [btick, btick, btick]) := by
    intro he
    rw [show (c :: cs).take 3 = c :: cs.take 2 from rfl] at he
    injection he with h1 _
    exact h h1
  exact decide_eq_false hne

theorem fjh_false_fourth (c : Char) (hc : ¬ jsLowerChar c = 'j') (cs : List Char) :
    fenceJsonHead (btick :: btick :: btick :: c :: cs) = false := by
  unfold fenceJsonHead
  have hne : ¬ ((((btick :: btick :: btick :: c :: cs).drop 3).take 4).map jsLowerChar =
      ['j', 's', 'o', 'n']) := by
    intro he
    rw [show (((btick :: btick :: btick :: c :: cs).drop 3).take 4) = c :: cs.take 3 from rfl,
      List.map_cons] at he
    injection he with h1 _
    exact hc h1
  rw [decide_eq_false hne, Bool.and_false]

theorem sfj_step_nofence (c : Char) (cs : List Char) (hf : fenceJsonHead (c :: cs) = false) :
    sfj 0 false (c :: cs) = c :: sfj 0 false cs := by
  simp only [sfj]
  rw [if_neg (by simp), if_neg (by simp), hf, if_neg (by simp)]

theorem sfp_step_nofence (c : Char) (cs : List Char) (hf : fencePlainHead (c :: cs) = false) :
    sfp 0 false (c :: cs) = c :: sfp 0 false cs := by
  simp only [sfp]
  rw [if_neg (by simp), if_neg (by simp), hf, if_neg (by simp)]

theorem sfj_pass (a : List Char) (h : ∀ c ∈ a, ¬ c = btick) (t : List Char) :
    sfj 0 false (a ++ t) = a ++ sfj 0 false t := by
  induction a with
  | nil => rfl
  | cons c cs ih =>
    rw [List.cons_append,
      sfj_step_nofence c (cs ++ t) (fenceJsonHead_false_head (h c (by simp)) (cs ++ t)),
      ih (fun x hx => h x (by simp [hx])), List.cons_append]

theorem sfp_pass (a : List Char) (h : ∀ c ∈ a, ¬ c = btick) (t : List Char) :
    sfp 0 false (a ++ t) = a ++ sfp 0 false t := by
  induction a with
  | nil => rfl
  | cons c cs ih =>
    rw [List.cons_append,
      sfp_step_nofence c (cs ++ t) (fencePlainHead_false_head (h c (by simp)) (cs ++ t)),
      ih (fun x hx => h x (by simp [hx])), List.cons_append]

theorem sfj_true_state (c : Char) (hw : isJsWs c = false) (cs : List Char) :
    sfj 0 true (c :: cs) = sfj 0 false (c :: cs) := by
  show (if true = true ∧ isJsWs c = true then sfj 0 true cs
      else if fenceJsonHead (c :: cs) = true then sfj 6 true cs else c :: sfj 0 false cs) =
    (if fenceJsonHead (c :: cs) = true then sfj 6 true cs else c :: sfj 0 false cs)
  rw [if_neg (fun hh => by rw [hw] at hh; exact Bool.noConfusion hh.2)]

theorem sfp_true_state (c : Char) (hw : isJsWs c = false) (cs : List Char) :
    sfp 0 true (c :: cs) = sfp 0 false (c :: cs) := by
  show (if true = true ∧ isJsWs c = true then sfp 0 true cs
      else if fencePlainHead (c :: cs) = true then sfp 2 true cs else c :: sfp 0 false cs) =
    (if fencePlainHead (c :: cs) = true then sfp 2 true cs else c :: sfp 0 false cs)
  rw [if_neg (fun hh => by rw [hw] at hh; exact Bool.noConfusion hh.2)]

theorem sfj_fence_json (X : List Char) :
    sfj 0 false (fenceOpen .json ++ X) = sfj 0 true X := rfl

theorem sfp_fence_plain (X : List Char) :
    sfp 0 false (fenceOpen .plain ++ X) = sfp 0 true X := rfl

theorem sfj_fence_plain (X : List Char) :
    sfj 0 false (fenceOpen .plain ++ X) = fenceOpen .plain ++ sfj 0 false X := by
  show sfj 0 false (btick :: btick :: btick :: '\n' :: X) =
    btick :: btick :: btick :: '\n' :: sfj 0 false X
  rw [sfj_step_nofence btick (btick :: btick :: '\n' :: X) (fjh_false_fourth '\n' (by decide) X),
    sfj_step_nofence btick (btick :: '\n' :: X) (by rfl),
    sfj_step_nofence btick ('\n' :: X) (by rfl),
    sfj_step_nofence '\n' X (fenceJsonHead_false_head (by decide) X)]

theorem c6_strip (pb pa s : List Char) (fk : Fence)
    (hpb : ∀ c ∈ pb, ¬ c = btick) (hs : ∀ c ∈ s, ¬ c = btick)
    (d : Char) (mid : List Char) (hsd : s = d :: mid) (hdw : isJsWs d = false) :
    ∃ w, sfp 0 false (sfj 0 false (c6wrap pb fk s pa)) = pb ++ (s ++ w) := by
  subst hsd
  cases fk with
  | json =>
    refine ⟨'\n' :: sfp 0 false (sfj 0 false ([btick, btick, btick] ++ pa)), ?_⟩
    unfold c6wrap
    rw [sfj_pass pb hpb, sfj_fence_json]
    rw [show (d :: mid) ++ (fenceClose ++ pa) = d :: (mid ++ (fenceClose ++ pa)) from rfl]
    rw [sfj_true_state d hdw]
    rw [show d :: (mid ++ (fenceClose ++ pa)) = (d :: mid) ++ (fenceClose ++ pa) from rfl]
    rw [sfj_pass (d :: mid) hs]
    rw [show fenceClose ++ pa = '\n' :: ([btick, btick, btick] ++ pa) from rfl]
    rw [sfj_step_nofence '\n' _ (fenceJsonHead_false_head (by decide) _)]
    rw [sfp_pass pb hpb, sfp_pass (d :: mid) hs]
    rw [sfp_step_nofence '\n' _ (fencePlainHead_false_head (by decide) _)]
  | plain =>
    refine ⟨'\n' :: sfp 0 false (sfj 0 false ([btick, btick, btick] ++ pa)), ?_⟩
    unfold c6wrap
    rw [sfj_pass pb hpb, sfj_fence_plain]
    rw [sfj_pass (d :: mid) hs]
    rw [show fenceClose ++ pa = '\n' :: ([btick, btick, btick] ++ pa) from rfl]
    rw [sfj_step_nofence '\n' _ (fenceJsonHead_false_head (by decide) _)]
    rw [sfp_pass pb hpb, sfp_fence_plain]
    rw [show (d :: mid) ++ ('\n' :: sfj 0 false ([btick, btick, btick] ++ pa)) =
      d :: (mid ++ ('\n' :: sfj 0 false ([btick, btick, btick] ++ pa))) from rfl]
    rw [sfp_true_state d hdw]
    rw [show d :: (mid ++ ('\n' :: sfj 0 false ([btick, btick, btick] ++ pa))) =
      (d :: mid) ++ ('\n' :: sfj 0 false ([btick, btick, btick] ++ pa)) from rfl]
    rw [sfp_pass (d :: mid) hs]
    rw [sfp_step_nofence '\n' _ (fencePlainHead_false_head (by decide) _)]

theorem dropEndWs_append (x w : List Char) (e : Char) (hl : x.getLast? = some e)
    (hew : isJsWs e = false) : dropEndWs (x ++ w) = x ++ dropEndWs w := by
  unfold dropEndWs
  rw [List.reverse_append, List.dropWhile_append]
  have hx : x.reverse = e :: x.reverse.tail := by
    have hh : x.reverse.head? = some e := by rw [List.head?_reverse]; exact hl
    cases hxr : x.reverse with
    | nil => rw [hxr] at hh; exact Option.noConfusion hh
    | cons c cs =>
      rw [hxr] at hh
      have hce : c = e := by injection hh
      rw [hce]
      rfl
  by_cases hwE : (w.reverse.dropWhile isJsWs).isEmpty
  · rw [if_pos hwE]
    have hempty : w.reverse.dropWhile isJsWs = [] := by
      cases hq : w.reverse.dropWhile isJsWs with
      | nil => rfl
      | cons a as => rw [hq] at hwE; exact Bool.noConfusion hwE
    rw [hx, List.dropWhile_cons, if_neg (by simp [hew]), ← hx, List.reverse_reverse,
      hempty, List.reverse_nil, List.append_nil]
  · rw [if_neg hwE, List.reverse_append, List.reverse_reverse]

theorem findBracket_boundary (a : List Char) (ha : ∀ c ∈ a, ¬ (c = lcurly ∨ c = lsq))
    (d : Char) (hd : d = lcurly ∨ d = lsq) (b : List Char) :
    findBracketIdx (a ++ d :: b) = some a.length := by
  induction a with
  | nil =>
    show findBracketIdx (d :: b) = some 0
    unfold findBracketIdx
    rw [if_pos hd]
  | cons c cs ih =>
    show findBracketIdx (c :: (cs ++ d :: b)) = some (cs.length + 1)
    unfold findBracketIdx
    rw [if_neg (ha c (by simp)), ih (fun x hx => ha x (by simp [hx]))]
    rfl

theorem c6_trim (a s w : List Char) (d : Char) (mid : List Char)
    (hsd : s = d :: mid) (hdw : isJsWs d = false)
    (e : Char) (hle : s.getLast? = some e) (hew : isJsWs e = false) :
    ∃ aT w2, jsTrim (a ++ (s ++ w)) = aT ++ (s ++ w2) ∧ ∀ c ∈ aT, c ∈ a := by
  have h1 : dropEndWs (a ++ (s ++ w)) = a ++ (s ++ dropEndWs w) := by
    rw [← List.append_assoc, dropEndWs_append (a ++ s) w e ?_ hew, List.append_assoc]
    rw [List.getLast?_append, hle]
    rfl
  unfold jsTrim
  rw [h1, List.dropWhile_append]
  by_cases hA : ((a.dropWhile isJsWs).isEmpty : Bool)
  · refine ⟨[], dropEndWs w, ?_, by simp⟩
    rw [if_pos hA, hsd, List.cons_append, List.dropWhile_cons, if_neg (by simp [hdw])]
    simp
  · refine ⟨a.dropWhile isJsWs, dropEndWs w, ?_, ?_⟩
    · rw [if_neg hA]
    · intro c hc
      exact (List.dropWhile_sublist isJsWs).subset hc

/-- C6 (amended): extraction from a fence-wrapped response is faithful under
the stated side conditions.  For every good JSON value `j` (string scalars
and keys free of quotes, backslashes, backticks, braces, brackets and
commas) with composite root, canonical serialization `s = sVal j`, prose
before the fence free of backticks and opening braces/brackets, either
fence kind (```json or plain ```) closed by a newline-``` fence, and
arbitrary prose after the closing fence: if `s` parses to `v` then
`parseJSON (prose_before ++ fence ++ s ++ fence ++ prose_after) = .ok v`.
The original unconditional claim over arbitrary prose is refuted by the
separate counterexample. -/
theorem c6_extraction_wrapped (j v : Json) (pb pa : List Char) (fk : Fence)
    (hg : goodV j = true) (hc : isComposite j = true)
    (hpb : pb.all noiseOk = true)
    (hv : jsonParse (sVal j) = some v) :
    parseJSON (c6wrap pb fk (sVal j) pa) = .ok v := by
  obtain ⟨d, mid, hsd, hdbr⟩ := sVal_head_comp j hc
  have hdw : isJsWs d = false := by rcases hdbr with h | h <;> rw [h] <;> decide
  have hpbT : ∀ c ∈ pb, ¬ c = btick :=
    fun c hc2 => (noiseOk_facts (List.all_eq_true.mp hpb c hc2)).1
  obtain ⟨w, hw⟩ := c6_strip pb pa (sVal j) fk hpbT (tickV j hg) d mid hsd hdw
  obtain ⟨m2, e, hse, hew⟩ := sVal_last j hc
  have hle : (sVal j).getLast? = some e := by rw [hse]; exact List.getLast?_concat m2
  unfold parseJSON
  rw [hw]
  obtain ⟨aT, w2, htr, haT⟩ := c6_trim pb (sVal j) w d mid hsd hdw e hle hew
  rw [htr]
  unfold extractCore
  have hfb : findBracketIdx (aT ++ (sVal j ++ w2)) = some aT.length := by
    rw [show sVal j ++ w2 = d :: (mid ++ w2) from by rw [hsd]; rfl]
    exact findBracket_boundary aT
      (fun c hc2 => by
        have hbn := noiseOk_facts (List.all_eq_true.mp hpb c (haT c hc2))
        rintro (he | he)
        exacts [hbn.2.1 he, hbn.2.2 he]) d hdbr (mid ++ w2)
  rw [hfb]
  show afterStart ((aT ++ (sVal j ++ w2)).drop aT.length) = Except.ok v
  rw [List.drop_left]
  exact c6_core j v w2 hg hc hv

/-- C6 counterexample to the unrestricted claim: with an opening brace in
the prose before the fence, the extractor locks onto the prose brace, the
scan never closes, and both parse attempts fail — even though the fenced
payload `[1]` parses on its own. -/
theorem c6_prose_brace_counterexample :
    jsonParse "[1]".data = some (.arr (.cons (.num 1) .nil)) ∧
    parseJSON c6bad = .error .unparsable := by decide

theorem c6_extraction_wrapped_witness :
    goodV c6j = true ∧ isComposite c6j = true ∧
    ("Voici le document final: ".data).all noiseOk = true ∧
    jsonParse (sVal c6j) = some c6j ∧
    parseJSON (c6wrap "Voici le document final: ".data .json (sVal c6j) " Merci.".data) =
      .ok c6j :=
  ⟨by decide, by decide, by decide, by decide,
    c6_extraction_wrapped c6j c6j "Voici le document final: ".data " Merci.".data .json
      (by decide) (by decide) (by decide) (by decide)⟩
